import Mathlib

/-!
Verification of the footnote-rewrite engine of `footnote_v2.py`.

The engine (`create_popup_footnotes`) parses one HTML content document with
BeautifulSoup, locates candidate footnote-reference nodes by CSS-like
selectors, resolves each reference's target by fragment identifier, rewrites
each resolved (reference, definition) pair into EPUB3 popup-footnote markup,
and finally removes leftover note-list paragraphs.

The document tree is embedded as a store of element nodes addressed by
numeric identities (mirroring BeautifulSoup's object identities), with text
nodes inlined into child lists (the script never holds a reference to a text
node across a mutation).  Each BeautifulSoup operation used by the script is
embedded as a total function on this store; the only points where the script
can raise (`soup.html` being `None`, a candidate lacking `href`) are modelled
with `Option`.
-/

set_option maxRecDepth 4000

namespace FootnoteV2

/-- A child slot of an element: either a reference to another element node
in the store, or an inline text node (a `NavigableString`). -/
inductive Child where
  | elemRef (i : Nat)
  | textNode (s : String)
deriving DecidableEq

/-- One element node: tag name, ordered attribute list, ordered children. -/
structure ElemData where
  tag : String
  attrs : List (String × String)
  children : List Child
deriving DecidableEq

/-- The node store: object identity (a `Nat`) paired with node data. -/
abbrev Store := List (Nat × ElemData)

/-- A parsed document: a store plus the identity of the `BeautifulSoup`
document node (tag `[document]`), whose children are the top-level nodes. -/
structure Doc where
  store : Store
  root : Nat
deriving DecidableEq

/-- Node lookup by identity (first matching entry). -/
def lookupNode (st : Store) (i : Nat) : Option ElemData :=
  (st.find? (fun e => e.1 == i)).map (fun e => e.2)

/-- The child list of a node (empty if the identity is not in the store). -/
def childrenOf (st : Store) (i : Nat) : List Child :=
  ((lookupNode st i).map (fun nd => nd.children)).getD []

/-- Attribute read on node data, BeautifulSoup's `tag[key]` / `tag.get(key)`. -/
def getAttrE (nd : ElemData) (k : String) : Option String :=
  ((nd.attrs.find? (fun p => p.1 == k)).map (fun p => p.2))

/-- Attribute read through the document. -/
def getAttrOf (d : Doc) (i : Nat) (k : String) : Option String :=
  (lookupNode d.store i).bind (fun nd => getAttrE nd k)

/-- The tag name of a node. -/
def tagOf (d : Doc) (i : Nat) : Option String :=
  (lookupNode d.store i).map (fun nd => nd.tag)

/-- BeautifulSoup's `key in tag.attrs`. -/
def hasAttr (d : Doc) (i : Nat) (k : String) : Bool :=
  (getAttrOf d i k).isSome

/-- Attribute write on node data: replace in place if the key exists,
otherwise append (dict semantics of `tag[key] = value`). -/
def setAttrE (nd : ElemData) (k v : String) : ElemData :=
  if nd.attrs.any (fun p => p.1 == k) then
    { nd with attrs := nd.attrs.map (fun p => if p.1 == k then (p.1, v) else p) }
  else
    { nd with attrs := nd.attrs ++ [(k, v)] }

/-- Update the data of node `i` in the store. -/
def updateNode (st : Store) (i : Nat) (f : ElemData → ElemData) : Store :=
  st.map (fun e => if e.1 == i then (e.1, f e.2) else e)

/-- BeautifulSoup's `tag[key] = value`. -/
def setAttr (d : Doc) (i : Nat) (k v : String) : Doc :=
  ⟨updateNode d.store i (fun nd => setAttrE nd k v), d.root⟩

/-- BeautifulSoup's `tag.name = value` (element-kind renaming). -/
def setName (d : Doc) (i : Nat) (t : String) : Doc :=
  ⟨updateNode d.store i (fun nd => { nd with tag := t }), d.root⟩

/-- BeautifulSoup's `tag.string = value`: the node's contents are replaced
by the single text node `value`. -/
def setString (d : Doc) (i : Nat) (s : String) : Doc :=
  ⟨updateNode d.store i (fun nd => { nd with children := [Child.textNode s] }), d.root⟩

/-- Python's `str.split()` word splitting (whitespace characters). -/
def isPySpace (c : Char) : Bool :=
  c == ' ' || c == '\t' || c == '\n' || c == '\r' || c == '\x0b' || c == '\x0c'

/-- Accumulating word splitter over characters (current word is reversed). -/
def wordsOf : List Char → List Char → List String
  | [], cur => if cur.isEmpty then [] else [String.mk cur.reverse]
  | c :: cs, cur =>
    if isPySpace c then
      (if cur.isEmpty then wordsOf cs [] else String.mk cur.reverse :: wordsOf cs [])
    else wordsOf cs (c :: cur)

/-- The multi-valued `class` attribute as BeautifulSoup presents it:
the attribute value split on whitespace. -/
def classList (s : String) : List String := wordsOf s.data []

/-- Whether node `i` carries CSS class `c` (`class_=c` matching). -/
def hasClassOf (d : Doc) (i : Nat) (c : String) : Bool :=
  (classList ((getAttrOf d i "class").getD "")).contains c

/-- Fuel-bounded preorder traversal from node `i`, yielding each strict
descendant paired with its tree parent.  The fuel bounds the depth; every
use supplies `store.length + 1`, enough for any acyclic store. -/
def walkNode (st : Store) : Nat → Nat → List (Nat × Nat)
  | 0, _ => []
  | fuel+1, i =>
    (childrenOf st i).foldr (fun c acc =>
      (match c with
       | Child.elemRef j => (j, i) :: walkNode st fuel j
       | Child.textNode _ => []) ++ acc) []

/-- One unfolding step of `walkNode`, separated for reasoning. -/
def walkChildren (st : Store) (fuel : Nat) (par : Nat) (cs : List Child) : List (Nat × Nat) :=
  cs.foldr (fun c acc =>
    (match c with
     | Child.elemRef j => (j, par) :: walkNode st fuel j
     | Child.textNode _ => []) ++ acc) []

/-- All strict descendants of the document node, with parents, in document
(preorder) order. -/
def Doc.walk (d : Doc) : List (Nat × Nat) :=
  walkNode d.store (d.store.length + 1) d.root

/-- All strict descendants of the document node in document order: the scan
domain of BeautifulSoup's `find` / `find_all` / `select` on `soup`. -/
def Doc.descendants (d : Doc) : List Nat :=
  d.walk.map (fun pr => pr.1)

/-- The tree parent of an attached node (`tag.parent`). -/
def parentIn (d : Doc) (i : Nat) : Option Nat :=
  ((Doc.walk d).find? (fun pr => pr.1 == i)).map (fun pr => pr.2)

/-- Ancestor walk for `tag.find_parent('p')`, fuel-bounded. -/
def findParentPAux (d : Doc) : Nat → Nat → Option Nat
  | 0, _ => none
  | fuel+1, i =>
    match parentIn d i with
    | none => none
    | some p => if tagOf d p == some "p" then some p else findParentPAux d fuel p

/-- BeautifulSoup's `tag.find_parent('p')`: the nearest ancestor whose tag
is `p`. -/
def findParentP (d : Doc) (i : Nat) : Option Nat :=
  findParentPAux d (d.store.length + 1) i

/-- BeautifulSoup's `soup.find(id=s)`: the first node in document order
whose `id` attribute equals `s`, scanning the whole document. -/
def findById (d : Doc) (s : String) : Option Nat :=
  (Doc.descendants d).find? (fun i => getAttrOf d i "id" == some s)

/-- BeautifulSoup's `soup.html`: the first descendant tagged `html`. -/
def findHtml (d : Doc) : Option Nat :=
  (Doc.descendants d).find? (fun i => tagOf d i == some "html")

/-- The CSS selector shapes used by the script: `tag.cls`, and the child
combinator `ptag.pcls > tag`. -/
inductive Selector where
  | tagCls (tag cls : String)
  | childTag (ptag pcls tag : String)
deriving DecidableEq

/-- Whether the walk entry `pr = (node, parent)` matches a selector. -/
def selMatches (d : Doc) (sel : Selector) (pr : Nat × Nat) : Bool :=
  match sel with
  | Selector.tagCls t c => (tagOf d pr.1 == some t) && hasClassOf d pr.1 c
  | Selector.childTag pt pc t =>
      (tagOf d pr.1 == some t) && (tagOf d pr.2 == some pt) && hasClassOf d pr.2 pc

/-- BeautifulSoup's `soup.select(sel)`: all matches in document order. -/
def selectDoc (d : Doc) (sel : Selector) : List Nat :=
  ((Doc.walk d).filter (selMatches d sel)).map (fun pr => pr.1)

/-- The built-in selector rule list (`foot_ref_tags_selectors`, lines 14-15):
note that `a.footnote-ref` appears at positions 0 and 3. -/
def foot_ref_tags_selectors : List Selector :=
  [Selector.tagCls "a" "footnote-ref", Selector.tagCls "a" "footnote",
   Selector.tagCls "a" "footnote-backref", Selector.tagCls "a" "footnote-ref",
   Selector.childTag "span" "math-super" "a", Selector.tagCls "a" "footnote-link",
   Selector.childTag "sup" "suptext" "a"]

/-- The default manual-mode selector (`selector = 'a.footnote-ref'`, line 17). -/
def defaultSelector : Selector := Selector.tagCls "a" "footnote-ref"

/-- Remove every child slot referring to node `x` (detaching `x`):
the store-level effect of `tag.extract()` and of the implicit extraction
performed by `insert_after` / `insert_before` on an already-attached node. -/
def eraseRef (st : Store) (x : Nat) : Store :=
  st.map (fun e => (e.1, { e.2 with children := e.2.children.filter (fun c => c != Child.elemRef x) }))

/-- Insert `elemRef x` immediately after the first occurrence of
`elemRef t` in a child list. -/
def insAfterL : List Child → Nat → Nat → List Child
  | [], _, _ => []
  | c :: rest, t, x =>
    if c == Child.elemRef t then c :: Child.elemRef x :: rest else c :: insAfterL rest t x

/-- Insert `elemRef x` immediately before the first occurrence of
`elemRef t` in a child list. -/
def insBeforeL : List Child → Nat → Nat → List Child
  | [], _, _ => []
  | c :: rest, t, x =>
    if c == Child.elemRef t then Child.elemRef x :: c :: rest else c :: insBeforeL rest t x

/-- BeautifulSoup's `t.insert_after(x)`: detach `x`, then place it right
after `t` among `t`'s siblings. -/
def insertAfter (d : Doc) (t x : Nat) : Doc :=
  ⟨(eraseRef d.store x).map (fun e => (e.1, { e.2 with children := insAfterL e.2.children t x })), d.root⟩

/-- BeautifulSoup's `t.insert_before(x)`: detach `x`, then place it right
before `t` among `t`'s siblings. -/
def insertBefore (d : Doc) (t x : Nat) : Doc :=
  ⟨(eraseRef d.store x).map (fun e => (e.1, { e.2 with children := insBeforeL e.2.children t x })), d.root⟩

/-- BeautifulSoup's `tag.extract()` (and, observably, `tag.decompose()`):
the node is detached from its parent. -/
def extractNode (d : Doc) (x : Nat) : Doc :=
  ⟨eraseRef d.store x, d.root⟩

/-- The largest identity present in a store. -/
def maxId (st : Store) : Nat :=
  st.foldr (fun e m => max e.1 m) 0

/-- A fresh identity for `soup.new_tag(...)`. -/
def freshId (d : Doc) : Nat := maxId d.store + 1

/-- Register a newly created tag object in the store. -/
def pushNode (d : Doc) (i : Nat) (nd : ElemData) : Doc :=
  ⟨d.store ++ [(i, nd)], d.root⟩

/-- The concatenation of the text nodes that are direct children of node
`i` (line 94-95: `''.join(...)` over the `NavigableString` children). -/
def directTextOf (d : Doc) (i : Nat) : String :=
  ((childrenOf d.store i).filterMap (fun c => match c with
    | Child.textNode s => some s
    | Child.elemRef _ => none)).foldl (fun acc s => acc ++ s) ""

/-- Python's `str.strip()`: drop leading and trailing whitespace. -/
def pyStrip (s : String) : String :=
  ⟨((s.data.dropWhile isPySpace).reverse.dropWhile isPySpace).reverse⟩

/-- Python's `note_href.split('#')[-1]`: the suffix after the last `#`
(the whole string when it has no `#`). -/
def noteIdOf (href : String) : String :=
  ⟨(href.data.reverse.takeWhile (fun c => c != '#')).reverse⟩

/-- Decimal digit string of `n`, fuel-bounded (`natStrAux (n+1) n` is exact). -/
def natStrAux : Nat → Nat → String
  | 0, _ => ""
  | fuel+1, n => if n = 0 then "" else natStrAux fuel (n / 10) ++ (Nat.digitChar (n % 10)).toString

/-- Python's `str(n)` for a natural number: its decimal representation. -/
def natStr (n : Nat) : String :=
  if n = 0 then "0" else natStrAux (n + 1) n

/-- The state after line 81: the reference's `id` is set to the generated
identifier `'nootref' + str(idx)` (before resolution is even attempted). -/
def soupIdAssigned (soup : Doc) (idx noteref : Nat) : Doc :=
  setAttr soup noteref "id" ("nootref" ++ natStr idx)

/-- The state after lines 86-89 (run only for a resolved pair): the
reference gets `epub:type="noteref"` and the marker glyph as its text,
and the definition is renamed to `aside` with `epub:type="footnote"`. -/
def soupMarked (soup : Doc) (idx noteref note_text : Nat) : Doc :=
  setAttr (setName (setString (setAttr (soupIdAssigned soup idx noteref)
    noteref "epub:type" "noteref") noteref "㊟") note_text "aside") note_text "epub:type" "footnote"

/-- The loop body, lines 79-109, for one candidate `noteref` with 1-based
sequence index `idx`.  Returns the mutated document and whether the
candidate was counted as processed (`processed_notes += 1`), or `none`
where the script would raise (`noteref['href']` / `noteref['id']` absent). -/
def processOne (need_jump : Bool) (soup : Doc) (idx : Nat) (noteref : Nat) : Option (Doc × Bool) :=
  match getAttrOf soup noteref "href" with
  | none => none
  | some note_href =>
    let soup1 := soupIdAssigned soup idx noteref
    match findById soup1 (noteIdOf note_href) with
    | none => some (soup1, false)
    | some note_text =>
      let soup4 := soupMarked soup idx noteref note_text
      let soup5 :=
        match findParentP soup4 note_text with
        | some parent_p =>
          let direct_text := pyStrip (directTextOf soup4 parent_p)
          extractNode (insertAfter (setString soup4 note_text direct_text) parent_p note_text) parent_p
        | none => soup4
      if need_jump then
        match getAttrOf soup5 noteref "id" with
        | none => none
        | some rid =>
          let new_tag_id := freshId soup5
          let soup6 := pushNode soup5 new_tag_id
            ⟨"a", [("href", "#" ++ rid)], [Child.textNode ("[" ++ natStr idx ++ "]")]⟩
          some (insertBefore soup6 note_text new_tag_id, true)
      else some (soup5, true)

/-- The candidate loop with explicit running index (`enumerate(footrefs,
start=1)`), also accumulating `processed_notes`. -/
def processAllAux (need_jump : Bool) : Doc → Nat → List Nat → Option (Doc × Nat)
  | soup, _, [] => some (soup, 0)
  | soup, idx, noteref :: rest =>
    match processOne need_jump soup idx noteref with
    | none => none
    | some (soup1, b) =>
      match processAllAux need_jump soup1 (idx + 1) rest with
      | none => none
      | some (soup2, c) => some (soup2, (bif b then 1 else 0) + c)

/-- Process every candidate, indices starting at 1. -/
def processAll (need_jump : Bool) (soup : Doc) (refs : List Nat) : Option (Doc × Nat) :=
  processAllAux need_jump soup 1 refs

/-- Line 112: `soup.find_all('p', class_='note')`. -/
def findAllPNote (d : Doc) : List Nat :=
  (Doc.descendants d).filter (fun i => (tagOf d i == some "p") && hasClassOf d i "note")

/-- Lines 111-113: decompose every remaining `<p class="note">`. -/
def removeNotePs (d : Doc) : Doc :=
  (findAllPNote d).foldl (fun acc n => extractNode acc n) d

/-- Lines 62-68: candidate discovery.  In automatic mode every built-in
rule's matches are appended in rule order; in manual mode only the single
configured selector is applied. -/
def findFootrefs (auto : Bool) (selector : Selector) (soup : Doc) : List Nat :=
  if auto then foot_ref_tags_selectors.foldl (fun acc s => acc ++ selectDoc soup s) []
  else selectDoc soup selector

/-- The automatic-mode candidate sequence. -/
def footrefsAuto (soup : Doc) : List Nat :=
  foot_ref_tags_selectors.foldl (fun acc s => acc ++ selectDoc soup s) []

/-- Serialization of one element subtree, fuel-bounded. -/
def serializeNode (st : Store) : Nat → Nat → String
  | 0, _ => ""
  | fuel+1, i =>
    match lookupNode st i with
    | none => ""
    | some nd =>
      "<" ++ nd.tag ++ nd.attrs.foldl (fun acc p => acc ++ " " ++ p.1 ++ "=\"" ++ p.2 ++ "\"") "" ++ ">"
        ++ nd.children.foldr (fun c acc =>
            (match c with
             | Child.textNode s => s
             | Child.elemRef j => serializeNode st fuel j) ++ acc) ""
        ++ "</" ++ nd.tag ++ ">"

/-- Serialization `str(soup)`: the document node's contents in order. -/
def Doc.toStr (d : Doc) : String :=
  (childrenOf d.store d.root).foldr (fun c acc =>
    (match c with
     | Child.textNode s => s
     | Child.elemRef j => serializeNode d.store (d.store.length + 1) j) ++ acc) ""

/-- Lines 43-118, `create_popup_footnotes`, over an abstract parser for the
external DocumentModel capability.  Returns `none` where the script raises
(`soup.html` is `None`, or a candidate lacks a link attribute); on the
zero-candidate path it returns the input string itself (line 71). -/
def create_popup_footnotes (need_jump auto_find_footnote_tags : Bool) (selector : Selector)
    (parse : String → Doc) (html_content : String) : Option String :=
  let soup0 := parse html_content
  match findHtml soup0 with
  | none => none
  | some html_node =>
    let soup := if hasAttr soup0 html_node "xmlns:epub" then soup0
                else setAttr soup0 html_node "xmlns:epub" "http://www.idpf.org/2007/ops"
    let footrefs := findFootrefs auto_find_footnote_tags selector soup
    if footrefs.isEmpty then some html_content
    else
      match processAll need_jump soup footrefs with
      | none => none
      | some (soup2, _) => some (Doc.toStr (removeNotePs soup2))

/-- The state of the paragraph-extraction block (lines 92-100) when the
definition `note_text` has a nearest `p` ancestor `parent_p`: the
definition's content is replaced by the ancestor's stripped direct text,
the definition is moved to immediately follow the ancestor, and the
ancestor is extracted. -/
def soupMoved (soup : Doc) (idx noteref note_text parent_p : Nat) : Doc :=
  extractNode (insertAfter (setString (soupMarked soup idx noteref note_text) note_text
    (pyStrip (directTextOf (soupMarked soup idx noteref note_text) parent_p)))
    parent_p note_text) parent_p

/-- The jump-back link tag built at lines 104-105. -/
def linkTag (idx : Nat) (rid : String) : ElemData :=
  ⟨"a", [("href", "#" ++ rid)], [Child.textNode ("[" ++ natStr idx ++ "]")]⟩

/-- The state after the jump-back block (lines 103-106) applied to state
`s5`: the new link is registered and inserted before the definition. -/
def soupJumped (s5 : Doc) (idx note_text : Nat) (rid : String) : Doc :=
  insertBefore (pushNode s5 (freshId s5) (linkTag idx rid)) note_text (freshId s5)

/-- The sequence index (counted from `i0`) of the last occurrence of `m`
in a candidate list, if any. -/
def lastIdxFrom (i0 : Nat) (refs : List Nat) (m : Nat) : Option Nat :=
  match refs with
  | [] => none
  | r :: rest =>
    match lastIdxFrom (i0 + 1) rest m with
    | some k => some k
    | none => if r = m then some i0 else none

/-- Whether `t` occurs as a prefix of `s` (character lists). -/
def prefixOfL : List Char → List Char → Bool
  | [], _ => true
  | _ :: _, [] => false
  | c :: cs, d :: ds => c == d && prefixOfL cs ds

/-- Whether `t` occurs as a substring of `s` (character lists). -/
def containsSubL : List Char → List Char → Bool
  | [], t => t.isEmpty
  | c :: cs, t => prefixOfL t (c :: cs) || containsSubL cs t

/-- Whether string `t` occurs inside string `s`. -/
def strContains (s t : String) : Bool := containsSubL s.data t.data

/-! ### Concrete test documents -/

/-- The document of property P4:
`<html><body><p>Some <i>inline</i> remark<a id="Z1">def text</a></p><a class="footnote-ref" href="#Z1">1</a></body></html>`. -/
def docP4 : Doc := ⟨[
  (0, ⟨"[document]", [], [Child.elemRef 1]⟩),
  (1, ⟨"html", [], [Child.elemRef 2]⟩),
  (2, ⟨"body", [], [Child.elemRef 3, Child.elemRef 6]⟩),
  (3, ⟨"p", [], [Child.textNode "Some ", Child.elemRef 4, Child.textNode " remark",
    Child.elemRef 5]⟩),
  (4, ⟨"i", [], [Child.textNode "inline"]⟩),
  (5, ⟨"a", [("id", "Z1")], [Child.textNode "def text"]⟩),
  (6, ⟨"a", [("class", "footnote-ref"), ("href", "#Z1")], [Child.textNode "1"]⟩)], 0⟩

/-- A document with one dangling reference carrying a pre-existing
identifier: `<a class="footnote-ref" href="#nope" id="orig">1</a>`. -/
def docDangling : Doc := ⟨[
  (0, ⟨"[document]", [], [Child.elemRef 1]⟩),
  (1, ⟨"html", [], [Child.elemRef 2]⟩),
  (2, ⟨"body", [], [Child.elemRef 3]⟩),
  (3, ⟨"a", [("class", "footnote-ref"), ("href", "#nope"), ("id", "orig")],
    [Child.textNode "1"]⟩)], 0⟩

/-- A document in which the second candidate's target identifier `B` is
carried by the first candidate's reference node, so the first rewrite
re-identifies the node the second lookup needs. -/
def docShadow : Doc := ⟨[
  (0, ⟨"[document]", [], [Child.elemRef 1]⟩),
  (1, ⟨"html", [], [Child.elemRef 2]⟩),
  (2, ⟨"body", [], [Child.elemRef 3, Child.elemRef 4, Child.elemRef 5]⟩),
  (3, ⟨"a", [("class", "footnote-ref"), ("href", "#A"), ("id", "B")], [Child.textNode "r"]⟩),
  (4, ⟨"a", [("class", "footnote-ref"), ("href", "#B")], [Child.textNode "s"]⟩),
  (5, ⟨"i", [("id", "A")], [Child.textNode "d"]⟩)], 0⟩

/-- A resolvable pair whose definition has no `p` ancestor:
`<span id="Z1">def</span><a class="footnote-ref" href="#Z1">1</a>`. -/
def docNoP : Doc := ⟨[
  (0, ⟨"[document]", [], [Child.elemRef 1]⟩),
  (1, ⟨"html", [], [Child.elemRef 2]⟩),
  (2, ⟨"body", [], [Child.elemRef 3, Child.elemRef 4]⟩),
  (3, ⟨"span", [("id", "Z1")], [Child.textNode "def"]⟩),
  (4, ⟨"a", [("class", "footnote-ref"), ("href", "#Z1")], [Child.textNode "1"]⟩)], 0⟩

/-- A reference that resolves to itself: its fragment equals its own
freshly generated identifier `nootref1`. -/
def docSelfRef : Doc := ⟨[
  (0, ⟨"[document]", [], [Child.elemRef 1]⟩),
  (1, ⟨"html", [], [Child.elemRef 2]⟩),
  (2, ⟨"body", [], [Child.elemRef 3]⟩),
  (3, ⟨"a", [("class", "footnote-ref"), ("href", "#nootref1")], [Child.textNode "x"]⟩)], 0⟩

/-- A document with no footnote markup at all. -/
def docNoFoot : Doc := ⟨[
  (0, ⟨"[document]", [], [Child.elemRef 1]⟩),
  (1, ⟨"html", [], [Child.elemRef 2]⟩),
  (2, ⟨"body", [], [Child.elemRef 3]⟩),
  (3, ⟨"p", [], [Child.textNode "x"]⟩)], 0⟩

/-- A parser stub returning `docNoFoot` for any input. -/
def parseNoFoot : String → Doc := fun _ => docNoFoot

/-- The markup that `docNoFoot` serializes to. -/
def noFootHtml : String := "<html><body><p>x</p></body></html>"

/-- A document with one resolvable pair inside a note paragraph plus one
leftover note paragraph. -/
def docPipe : Doc := ⟨[
  (0, ⟨"[document]", [], [Child.elemRef 1]⟩),
  (1, ⟨"html", [], [Child.elemRef 2]⟩),
  (2, ⟨"body", [], [Child.elemRef 3, Child.elemRef 4, Child.elemRef 5]⟩),
  (3, ⟨"p", [("class", "note")], [Child.textNode "n1 ", Child.elemRef 6]⟩),
  (4, ⟨"a", [("class", "footnote-ref"), ("href", "#Z")], [Child.textNode "1"]⟩),
  (5, ⟨"p", [("class", "note")], [Child.textNode "leftover"]⟩),
  (6, ⟨"a", [("id", "Z")], [Child.textNode "def"]⟩)], 0⟩

/-- A parser stub returning `docPipe` for any input. -/
def parsePipe : String → Doc := fun _ => docPipe

/-- A single `a.footnote-ref` candidate with a resolvable target, for
observing the duplicate-rule double rewrite. -/
def docDouble : Doc := ⟨[
  (0, ⟨"[document]", [], [Child.elemRef 1]⟩),
  (1, ⟨"html", [], [Child.elemRef 2]⟩),
  (2, ⟨"body", [], [Child.elemRef 3, Child.elemRef 4]⟩),
  (3, ⟨"a", [("class", "footnote-ref"), ("href", "#Z")], [Child.textNode "1"]⟩),
  (4, ⟨"span", [("id", "Z")], [Child.textNode "note"]⟩)], 0⟩

/-! ### Store-level lemmas -/

theorem find?_mapKeep (st : Store) (g : Nat → ElemData → ElemData) (j : Nat) :
    (st.map (fun e => (e.1, g e.1 e.2))).find? (fun e => e.1 == j) =
      (st.find? (fun e => e.1 == j)).map (fun e => (e.1, g e.1 e.2)) := by
  induction st with
  | nil => rfl
  | cons e st ih =>
    by_cases h : e.1 = j
    · simp [List.find?_cons, h]
    · have hb : (e.1 == j) = false := by simpa using h
      simp only [List.map_cons, List.find?_cons, hb]
      exact ih

theorem lookupNode_mapKeep (st : Store) (g : Nat → ElemData → ElemData) (j : Nat) :
    lookupNode (st.map (fun e => (e.1, g e.1 e.2))) j = (lookupNode st j).map (g j) := by
  unfold lookupNode
  rw [find?_mapKeep]
  cases hf : st.find? (fun e => e.1 == j) with
  | none => rfl
  | some e =>
    have he : e.1 = j := by simpa using List.find?_some hf
    subst he
    rfl

theorem updateNode_eq_map (st : Store) (i : Nat) (f : ElemData → ElemData) :
    updateNode st i f = st.map (fun e => (e.1, if e.1 == i then f e.2 else e.2)) := by
  unfold updateNode
  apply List.map_congr_left
  intro e _
  by_cases h : e.1 == i <;> simp [h]

theorem lookupNode_updateNode (st : Store) (i : Nat) (f : ElemData → ElemData) (j : Nat) :
    lookupNode (updateNode st i f) j =
      if j = i then (lookupNode st i).map f else lookupNode st j := by
  rw [updateNode_eq_map]
  refine (lookupNode_mapKeep st (fun k v => if k == i then f v else v) j).trans ?_
  by_cases h : j = i
  · subst h
    simp
  · have hb : (j == i) = false := by simpa using h
    simp [h, hb]

theorem lookupNode_eraseRef (st : Store) (x : Nat) (j : Nat) :
    lookupNode (eraseRef st x) j =
      (lookupNode st j).map
        (fun nd => { nd with children := nd.children.filter (fun c => c != Child.elemRef x) }) := by
  unfold eraseRef
  exact lookupNode_mapKeep st
    (fun _ nd => { nd with children := nd.children.filter (fun c => c != Child.elemRef x) }) j

theorem lookupNode_insertAfter (d : Doc) (t x : Nat) (j : Nat) :
    lookupNode (insertAfter d t x).store j =
      (lookupNode d.store j).map
        (fun nd =>
          { nd with children := insAfterL (nd.children.filter (fun c => c != Child.elemRef x)) t x }) := by
  simp only [insertAfter]
  refine (lookupNode_mapKeep (eraseRef d.store x)
    (fun _ nd => { nd with children := insAfterL nd.children t x }) j).trans ?_
  rw [lookupNode_eraseRef]
  cases lookupNode d.store j <;> rfl

theorem lookupNode_insertBefore (d : Doc) (t x : Nat) (j : Nat) :
    lookupNode (insertBefore d t x).store j =
      (lookupNode d.store j).map
        (fun nd =>
          { nd with children := insBeforeL (nd.children.filter (fun c => c != Child.elemRef x)) t x }) := by
  simp only [insertBefore]
  refine (lookupNode_mapKeep (eraseRef d.store x)
    (fun _ nd => { nd with children := insBeforeL nd.children t x }) j).trans ?_
  rw [lookupNode_eraseRef]
  cases lookupNode d.store j <;> rfl

theorem lookupNode_append_of_some (st st2 : Store) (j : Nat) (nd : ElemData)
    (h : lookupNode st j = some nd) : lookupNode (st ++ st2) j = some nd := by
  unfold lookupNode at h ⊢
  rw [List.find?_append]
  cases hf : st.find? (fun e => e.1 == j) with
  | none => rw [hf] at h; exact absurd h (by simp)
  | some e => rw [hf] at h; simp_all [Option.or]

theorem lookupNode_append_of_none (st st2 : Store) (j : Nat)
    (h : lookupNode st j = none) : lookupNode (st ++ st2) j = lookupNode st2 j := by
  unfold lookupNode at h ⊢
  rw [List.find?_append]
  cases hf : st.find? (fun e => e.1 == j) with
  | none => simp [Option.or]
  | some e => rw [hf] at h; exact absurd h (by simp)

/-! ### Attribute-list lemmas -/

theorem find?_setList_self (l : List (String × String)) (k v : String)
    (h : l.any (fun p => p.1 == k) = true) :
    (l.map (fun p => if p.1 == k then (p.1, v) else p)).find? (fun p => p.1 == k)
      = some (k, v) := by
  induction l with
  | nil => simp at h
  | cons q l ih =>
    rw [List.map_cons]
    by_cases hq : q.1 = k
    · have hb : ((if (q.1 == k) = true then (q.1, v) else q).1 == k) = true := by
        rw [if_pos (by simpa using hq : ((q.1 == k) = true))]
        simpa using hq
      simp only [List.find?_cons, hb]
      rw [if_pos (by simpa using hq : ((q.1 == k) = true))]
      simp [hq]
    · have hbq : (q.1 == k) = false := by simpa using hq
      have hb : ((if (q.1 == k) = true then (q.1, v) else q).1 == k) = false := by
        rw [if_neg (by simp [hbq])]
        exact hbq
      have h2 : l.any (fun p => p.1 == k) = true := by
        simpa [List.any_cons, hbq] using h
      simp only [List.find?_cons, hb]
      exact ih h2

theorem find?_setList_other (l : List (String × String)) (k v k2 : String) (hk : k2 ≠ k) :
    (l.map (fun p => if p.1 == k then (p.1, v) else p)).find? (fun p => p.1 == k2)
      = l.find? (fun p => p.1 == k2) := by
  induction l with
  | nil => rfl
  | cons q l ih =>
    rw [List.map_cons]
    by_cases hq2 : q.1 = k2
    · have hqk : (q.1 == k) = false := beq_eq_false_iff_ne.mpr (by rw [hq2]; exact hk)
      have hhead : (if q.1 == k then (q.1, v) else q) = q := by rw [if_neg]; simp [hqk]
      have hb : (q.1 == k2) = true := by simp [hq2]
      rw [hhead]
      simp only [List.find?_cons, hb]
    · have hb2 : (q.1 == k2) = false := beq_eq_false_iff_ne.mpr hq2
      have h1 : ((if (q.1 == k) = true then (q.1, v) else q).1 == k2) = false := by
        by_cases hq : q.1 = k
        · rw [if_pos (by simpa using hq : ((q.1 == k) = true))]
          exact hb2
        · rw [if_neg (by simpa using hq : ¬ ((q.1 == k) = true))]
          exact hb2
      simp only [List.find?_cons, h1, hb2]
      exact ih

theorem find?_attrs_none_of_not_any (l : List (String × String)) (k : String)
    (h : ¬ l.any (fun p => p.1 == k) = true) :
    l.find? (fun p => p.1 == k) = none := by
  rw [List.find?_eq_none]
  intro p hp hkk
  exact h (List.any_eq_true.mpr ⟨p, hp, hkk⟩)

theorem getAttrE_setAttrE_self (nd : ElemData) (k v : String) :
    getAttrE (setAttrE nd k v) k = some v := by
  unfold setAttrE
  by_cases h : nd.attrs.any (fun p => p.1 == k)
  · rw [if_pos h]
    show ((nd.attrs.map (fun p => if p.1 == k then (p.1, v) else p)).find?
      (fun p => p.1 == k)).map (fun p => p.2) = some v
    rw [find?_setList_self nd.attrs k v h]
    rfl
  · rw [if_neg h]
    show ((nd.attrs ++ [(k, v)]).find? (fun p => p.1 == k)).map (fun p => p.2) = some v
    rw [List.find?_append, find?_attrs_none_of_not_any nd.attrs k h]
    simp [Option.or]

theorem getAttrE_setAttrE_other (nd : ElemData) (k v k2 : String) (hk : k2 ≠ k) :
    getAttrE (setAttrE nd k v) k2 = getAttrE nd k2 := by
  unfold setAttrE
  by_cases h : nd.attrs.any (fun p => p.1 == k)
  · rw [if_pos h]
    show ((nd.attrs.map (fun p => if p.1 == k then (p.1, v) else p)).find?
      (fun p => p.1 == k2)).map (fun p => p.2) = getAttrE nd k2
    rw [find?_setList_other nd.attrs k v k2 hk]
    rfl
  · rw [if_neg h]
    show ((nd.attrs ++ [(k, v)]).find? (fun p => p.1 == k2)).map (fun p => p.2) = getAttrE nd k2
    have hb : (k == k2) = false := beq_eq_false_iff_ne.mpr (Ne.symm hk)
    rw [List.find?_append]
    cases hf : nd.attrs.find? (fun p => p.1 == k2) with
    | some p => simp [Option.or, getAttrE, hf]
    | none => simp [Option.or, getAttrE, hf, List.find?_cons, hb]

theorem setAttrE_tag (nd : ElemData) (k v : String) : (setAttrE nd k v).tag = nd.tag := by
  unfold setAttrE
  split <;> rfl

theorem setAttrE_children (nd : ElemData) (k v : String) :
    (setAttrE nd k v).children = nd.children := by
  unfold setAttrE
  split <;> rfl

/-! ### Document-level corollaries about single mutations -/

theorem getAttrOf_setAttr_self (d : Doc) (i : Nat) (k v : String) (nd : ElemData)
    (h : lookupNode d.store i = some nd) :
    getAttrOf (setAttr d i k v) i k = some v := by
  unfold getAttrOf setAttr
  rw [lookupNode_updateNode, if_pos rfl, h]
  simp [getAttrE_setAttrE_self]

theorem getAttrOf_setAttr_other_node (d : Doc) (i : Nat) (k v : String) (j : Nat) (k2 : String)
    (h : j ≠ i) : getAttrOf (setAttr d i k v) j k2 = getAttrOf d j k2 := by
  unfold getAttrOf setAttr
  rw [lookupNode_updateNode, if_neg h]

theorem getAttrOf_setAttr_other_key (d : Doc) (i : Nat) (k v : String) (j : Nat) (k2 : String)
    (h : k2 ≠ k) : getAttrOf (setAttr d i k v) j k2 = getAttrOf d j k2 := by
  unfold getAttrOf setAttr
  rw [lookupNode_updateNode]
  by_cases hj : j = i
  · subst hj
    rw [if_pos rfl]
    cases lookupNode d.store j with
    | none => rfl
    | some nd => simp [getAttrE_setAttrE_other nd k v k2 h]
  · rw [if_neg hj]

theorem tagOf_setAttr (d : Doc) (i : Nat) (k v : String) (j : Nat) :
    tagOf (setAttr d i k v) j = tagOf d j := by
  unfold tagOf setAttr
  rw [lookupNode_updateNode]
  by_cases hj : j = i
  · subst hj
    rw [if_pos rfl]
    cases lookupNode d.store j with
    | none => rfl
    | some nd => simp [setAttrE_tag]
  · rw [if_neg hj]

theorem childrenOf_setAttr (d : Doc) (i : Nat) (k v : String) (j : Nat) :
    childrenOf (setAttr d i k v).store j = childrenOf d.store j := by
  unfold childrenOf setAttr
  rw [lookupNode_updateNode]
  by_cases hj : j = i
  · subst hj
    rw [if_pos rfl]
    cases lookupNode d.store j with
    | none => rfl
    | some nd => simp [setAttrE_children]
  · rw [if_neg hj]

theorem getAttrOf_setName (d : Doc) (i : Nat) (t : String) (j : Nat) (k : String) :
    getAttrOf (setName d i t) j k = getAttrOf d j k := by
  unfold getAttrOf setName
  rw [lookupNode_updateNode]
  by_cases hj : j = i
  · subst hj
    rw [if_pos rfl]
    cases lookupNode d.store j with
    | none => rfl
    | some nd => rfl
  · rw [if_neg hj]

theorem childrenOf_setName (d : Doc) (i : Nat) (t : String) (j : Nat) :
    childrenOf (setName d i t).store j = childrenOf d.store j := by
  unfold childrenOf setName
  rw [lookupNode_updateNode]
  by_cases hj : j = i
  · subst hj
    rw [if_pos rfl]
    cases lookupNode d.store j with
    | none => rfl
    | some nd => rfl
  · rw [if_neg hj]

theorem tagOf_setName_self (d : Doc) (i : Nat) (t : String) (nd : ElemData)
    (h : lookupNode d.store i = some nd) : tagOf (setName d i t) i = some t := by
  unfold tagOf setName
  rw [lookupNode_updateNode, if_pos rfl, h]
  rfl

theorem tagOf_setName_other (d : Doc) (i : Nat) (t : String) (j : Nat) (h : j ≠ i) :
    tagOf (setName d i t) j = tagOf d j := by
  unfold tagOf setName
  rw [lookupNode_updateNode, if_neg h]

theorem getAttrOf_setString (d : Doc) (i : Nat) (s : String) (j : Nat) (k : String) :
    getAttrOf (setString d i s) j k = getAttrOf d j k := by
  unfold getAttrOf setString
  rw [lookupNode_updateNode]
  by_cases hj : j = i
  · subst hj
    rw [if_pos rfl]
    cases lookupNode d.store j with
    | none => rfl
    | some nd => rfl
  · rw [if_neg hj]

theorem tagOf_setString (d : Doc) (i : Nat) (s : String) (j : Nat) :
    tagOf (setString d i s) j = tagOf d j := by
  unfold tagOf setString
  rw [lookupNode_updateNode]
  by_cases hj : j = i
  · subst hj
    rw [if_pos rfl]
    cases lookupNode d.store j with
    | none => rfl
    | some nd => rfl
  · rw [if_neg hj]

theorem childrenOf_setString_self (d : Doc) (i : Nat) (s : String) (nd : ElemData)
    (h : lookupNode d.store i = some nd) :
    childrenOf (setString d i s).store i = [Child.textNode s] := by
  unfold childrenOf setString
  rw [lookupNode_updateNode, if_pos rfl, h]
  rfl

theorem childrenOf_setString_other (d : Doc) (i : Nat) (s : String) (j : Nat) (h : j ≠ i) :
    childrenOf (setString d i s).store j = childrenOf d.store j := by
  unfold childrenOf setString
  rw [lookupNode_updateNode, if_neg h]

theorem getAttrOf_extractNode (d : Doc) (x : Nat) (j : Nat) (k : String) :
    getAttrOf (extractNode d x) j k = getAttrOf d j k := by
  unfold getAttrOf extractNode
  rw [lookupNode_eraseRef]
  cases lookupNode d.store j <;> rfl

theorem tagOf_extractNode (d : Doc) (x : Nat) (j : Nat) :
    tagOf (extractNode d x) j = tagOf d j := by
  unfold tagOf extractNode
  rw [lookupNode_eraseRef]
  cases lookupNode d.store j <;> rfl

theorem childrenOf_extractNode (d : Doc) (x : Nat) (j : Nat) :
    childrenOf (extractNode d x).store j
      = (childrenOf d.store j).filter (fun c => c != Child.elemRef x) := by
  unfold childrenOf extractNode
  rw [lookupNode_eraseRef]
  cases lookupNode d.store j <;> rfl

theorem getAttrOf_insertAfter (d : Doc) (t x : Nat) (j : Nat) (k : String) :
    getAttrOf (insertAfter d t x) j k = getAttrOf d j k := by
  unfold getAttrOf
  rw [lookupNode_insertAfter]
  cases lookupNode d.store j <;> rfl

theorem tagOf_insertAfter (d : Doc) (t x : Nat) (j : Nat) :
    tagOf (insertAfter d t x) j = tagOf d j := by
  unfold tagOf
  rw [lookupNode_insertAfter]
  cases lookupNode d.store j <;> rfl

theorem childrenOf_insertAfter (d : Doc) (t x : Nat) (j : Nat) :
    childrenOf (insertAfter d t x).store j
      = insAfterL ((childrenOf d.store j).filter (fun c => c != Child.elemRef x)) t x := by
  unfold childrenOf
  rw [lookupNode_insertAfter]
  cases lookupNode d.store j <;> rfl

theorem getAttrOf_insertBefore (d : Doc) (t x : Nat) (j : Nat) (k : String) :
    getAttrOf (insertBefore d t x) j k = getAttrOf d j k := by
  unfold getAttrOf
  rw [lookupNode_insertBefore]
  cases lookupNode d.store j <;> rfl

theorem tagOf_insertBefore (d : Doc) (t x : Nat) (j : Nat) :
    tagOf (insertBefore d t x) j = tagOf d j := by
  unfold tagOf
  rw [lookupNode_insertBefore]
  cases lookupNode d.store j <;> rfl

theorem childrenOf_insertBefore (d : Doc) (t x : Nat) (j : Nat) :
    childrenOf (insertBefore d t x).store j
      = insBeforeL ((childrenOf d.store j).filter (fun c => c != Child.elemRef x)) t x := by
  unfold childrenOf
  rw [lookupNode_insertBefore]
  cases lookupNode d.store j <;> rfl

/-! ### Fresh identities -/

theorem fst_le_maxId (st : Store) (e : Nat × ElemData) (h : e ∈ st) : e.1 ≤ maxId st := by
  induction st with
  | nil => cases h
  | cons q st ih =>
    rcases List.mem_cons.mp h with h1 | h1
    · subst h1
      exact le_max_left _ _
    · exact le_trans (ih h1) (le_max_right _ _)

theorem lookupNode_some_le_maxId (st : Store) (j : Nat) (nd : ElemData)
    (h : lookupNode st j = some nd) : j ≤ maxId st := by
  unfold lookupNode at h
  cases hf : st.find? (fun e => e.1 == j) with
  | none => rw [hf] at h; exact absurd h (by simp)
  | some e =>
    have he : e.1 = j := by simpa using List.find?_some hf
    have := fst_le_maxId st e (List.mem_of_find?_eq_some hf)
    omega

theorem lookupNode_of_gt_maxId (st : Store) (j : Nat) (h : maxId st < j) :
    lookupNode st j = none := by
  cases hl : lookupNode st j with
  | none => rfl
  | some nd => exact absurd (lookupNode_some_le_maxId st j nd hl) (by omega)

theorem lookupNode_pushNode_self (d : Doc) (nd : ElemData) :
    lookupNode (pushNode d (freshId d) nd).store (freshId d) = some nd := by
  unfold pushNode
  rw [lookupNode_append_of_none _ _ _ (lookupNode_of_gt_maxId _ _ (by simp [freshId]))]
  simp [lookupNode, List.find?]

theorem lookupNode_pushNode_other (d : Doc) (i : Nat) (nd : ElemData) (j : Nat) (nd2 : ElemData)
    (h : lookupNode d.store j = some nd2) :
    lookupNode (pushNode d i nd).store j = some nd2 :=
  lookupNode_append_of_some _ _ _ _ h

theorem getAttrOf_pushNode (d : Doc) (i : Nat) (nd : ElemData) (j : Nat) (k : String)
    (hne : j ≠ i) : getAttrOf (pushNode d i nd) j k = getAttrOf d j k := by
  unfold getAttrOf pushNode
  cases hl : lookupNode d.store j with
  | some nd2 => rw [lookupNode_append_of_some _ _ _ _ hl]
  | none =>
    rw [lookupNode_append_of_none _ _ _ hl]
    have : lookupNode [(i, nd)] j = none := by
      simp only [lookupNode, List.find?]
      have : (i == j) = false := by simpa using fun hh => hne hh.symm
      simp [this]
    rw [this]

/-! ### Traversal lemmas -/

theorem walkNode_succ (st : Store) (fuel : Nat) (i : Nat) :
    walkNode st (fuel + 1) i = walkChildren st fuel i (childrenOf st i) := rfl

theorem walkChildren_nil (st : Store) (fuel : Nat) (par : Nat) :
    walkChildren st fuel par [] = [] := rfl

theorem walkChildren_cons_text (st : Store) (fuel : Nat) (par : Nat) (s : String)
    (cs : List Child) :
    walkChildren st fuel par (Child.textNode s :: cs) = walkChildren st fuel par cs := rfl

theorem walkChildren_cons_elem (st : Store) (fuel : Nat) (par : Nat) (j : Nat)
    (cs : List Child) :
    walkChildren st fuel par (Child.elemRef j :: cs)
      = ((j, par) :: walkNode st fuel j) ++ walkChildren st fuel par cs := rfl

theorem mem_walkChildren (st : Store) (fuel : Nat) (par : Nat) (cs : List Child)
    (m p : Nat) (h : (m, p) ∈ walkChildren st fuel par cs) :
    (p = par ∧ Child.elemRef m ∈ cs) ∨ ∃ j, Child.elemRef j ∈ cs ∧ (m, p) ∈ walkNode st fuel j := by
  induction cs with
  | nil => cases h
  | cons c cs ih =>
    cases c with
    | textNode s =>
      rw [walkChildren_cons_text] at h
      rcases ih h with ⟨h1, h2⟩ | ⟨j, hj, hm⟩
      · exact Or.inl ⟨h1, List.mem_cons_of_mem _ h2⟩
      · exact Or.inr ⟨j, List.mem_cons_of_mem _ hj, hm⟩
    | elemRef j =>
      rw [walkChildren_cons_elem] at h
      rcases List.mem_append.mp h with h1 | h1
      · rcases List.mem_cons.mp h1 with h2 | h2
        · cases h2
          exact Or.inl ⟨rfl, List.mem_cons_self _ _⟩
        · exact Or.inr ⟨j, List.mem_cons_self _ _, h2⟩
      · rcases ih h1 with ⟨h2, h3⟩ | ⟨j2, hj2, hm2⟩
        · exact Or.inl ⟨h2, List.mem_cons_of_mem _ h3⟩
        · exact Or.inr ⟨j2, List.mem_cons_of_mem _ hj2, hm2⟩

theorem walk_sound (st : Store) : ∀ (fuel i m p : Nat),
    (m, p) ∈ walkNode st fuel i → Child.elemRef m ∈ childrenOf st p := by
  intro fuel
  induction fuel with
  | zero => intro i m p h; cases h
  | succ fuel ih =>
    intro i m p h
    rw [walkNode_succ] at h
    rcases mem_walkChildren st fuel i (childrenOf st i) m p h with ⟨h1, h2⟩ | ⟨j, _, hm⟩
    · subst h1
      exact h2
    · exact ih j m p hm

/-! ### Lookup-by-identifier lemmas -/

theorem findById_mem (d : Doc) (s : String) (n : Nat) (h : findById d s = some n) :
    n ∈ Doc.descendants d :=
  List.mem_of_find?_eq_some h

theorem findById_attr (d : Doc) (s : String) (n : Nat) (h : findById d s = some n) :
    getAttrOf d n "id" = some s := by
  have := List.find?_some h
  simpa using this

theorem findById_none (d : Doc) (s : String) (h : findById d s = none) :
    ∀ n ∈ Doc.descendants d, getAttrOf d n "id" ≠ some s := by
  intro n hn hat
  have := List.find?_eq_none.mp h n hn
  simp [hat] at this

theorem getAttrOf_some_lookup (d : Doc) (n : Nat) (k v : String)
    (h : getAttrOf d n k = some v) : ∃ nd, lookupNode d.store n = some nd := by
  unfold getAttrOf at h
  cases hl : lookupNode d.store n with
  | none => rw [hl] at h; exact absurd h (by simp)
  | some nd => exact ⟨nd, rfl⟩

theorem findParentPAux_tag (d : Doc) : ∀ (fuel i p : Nat),
    findParentPAux d fuel i = some p → tagOf d p = some "p" := by
  intro fuel
  induction fuel with
  | zero => intro i p h; cases h
  | succ fuel ih =>
    intro i p h
    unfold findParentPAux at h
    split at h
    · cases h
    · split at h
      · cases h
        rename_i ht
        simpa using ht
      · exact ih _ p h

theorem findParentP_tag (d : Doc) (i p : Nat) (h : findParentP d i = some p) :
    tagOf d p = some "p" :=
  findParentPAux_tag d _ i p h

/-! ### Decimal representation lemmas -/

theorem digitChar_inj_lt (a b : Nat) (ha : a < 10) (hb : b < 10)
    (h : Nat.digitChar a = Nat.digitChar b) : a = b := by
  interval_cases a <;> interval_cases b <;> first | rfl | exact absurd h (by decide)

theorem map_digitChar_inj : ∀ (l1 l2 : List Nat), (∀ d ∈ l1, d < 10) → (∀ d ∈ l2, d < 10) →
    l1.map Nat.digitChar = l2.map Nat.digitChar → l1 = l2 := by
  intro l1
  induction l1 with
  | nil => intro l2 _ _ h; cases l2 with
    | nil => rfl
    | cons b l2 => simp at h
  | cons a l1 ih =>
    intro l2 h1 h2 h
    cases l2 with
    | nil => simp at h
    | cons b l2 =>
      simp only [List.map_cons, List.cons.injEq] at h
      have ha := h1 a (List.mem_cons_self _ _)
      have hb := h2 b (List.mem_cons_self _ _)
      have hab := digitChar_inj_lt a b ha hb h.1
      have : l1 = l2 := ih l2 (fun d hd => h1 d (List.mem_cons_of_mem _ hd))
        (fun d hd => h2 d (List.mem_cons_of_mem _ hd)) h.2
      rw [hab, this]

theorem natStrAux_eq_digits : ∀ (fuel n : Nat), n ≤ fuel →
    natStrAux fuel n = String.mk (((Nat.digits 10 n).map Nat.digitChar).reverse) := by
  intro fuel
  induction fuel with
  | zero =>
    intro n hn
    have : n = 0 := Nat.le_zero.mp hn
    subst this
    rw [Nat.digits_zero]
    rfl
  | succ fuel ih =>
    intro n hn
    by_cases h0 : n = 0
    · subst h0
      rw [Nat.digits_zero]
      rfl
    · have hdiv : n / 10 ≤ fuel := by
        have : n / 10 < n := Nat.div_lt_self (Nat.pos_of_ne_zero h0) (by omega)
        omega
      have hrec := ih (n / 10) hdiv
      unfold natStrAux
      rw [if_neg h0, hrec, Nat.digits_def' (by omega : 1 < 10) (Nat.pos_of_ne_zero h0)]
      show String.mk (((Nat.digits 10 (n / 10)).map Nat.digitChar).reverse)
          ++ String.mk [Nat.digitChar (n % 10)] = _
      rw [List.map_cons, List.reverse_cons]
      rfl

theorem digits_all_lt (n : Nat) : ∀ d ∈ Nat.digits 10 n, d < 10 := by
  intro d hd
  exact Nat.digits_lt_base (by omega) hd

theorem natStr_inj (a b : Nat) (h : natStr a = natStr b) : a = b := by
  have key : ∀ m : Nat, m ≠ 0 → natStr m = String.mk (((Nat.digits 10 m).map Nat.digitChar).reverse) := by
    intro m hm
    unfold natStr
    rw [if_neg hm]
    exact natStrAux_eq_digits (m + 1) m (by omega)
  have digEq : ∀ m1 m2 : Nat, Nat.digits 10 m1 = Nat.digits 10 m2 → m1 = m2 := by
    intro m1 m2 hd
    have := congrArg (Nat.ofDigits 10) hd
    rwa [Nat.ofDigits_digits, Nat.ofDigits_digits] at this
  have aux : ∀ m : Nat, m ≠ 0 → natStr 0 ≠ natStr m := by
    intro m hm hcontra
    rw [key m hm] at hcontra
    have h00 : natStr 0 = "0" := rfl
    rw [h00] at hcontra
    have hdata : ['0'] = ((Nat.digits 10 m).map Nat.digitChar).reverse :=
      congrArg String.data hcontra
    have hmap : (Nat.digits 10 m).map Nat.digitChar = ['0'] := by
      have := congrArg List.reverse hdata
      simpa using this.symm
    have hdig : Nat.digits 10 m = [0] := by
      have h0 : ([0] : List Nat).map Nat.digitChar = ['0'] := rfl
      exact map_digitChar_inj _ _ (digits_all_lt m)
        (by intro d hd; simp at hd; omega) (hmap.trans h0.symm)
    have hm0 : m = 0 := by
      have h1 := Nat.ofDigits_digits 10 m
      rw [hdig] at h1
      simpa [Nat.ofDigits] using h1.symm
    exact hm hm0
  by_cases h1 : a = 0 <;> by_cases h2 : b = 0
  · omega
  · subst h1
    exact absurd h (aux b h2)
  · subst h2
    exact absurd h.symm (aux a h1)
  · rw [key a h1, key b h2] at h
    have hdata := congrArg String.data h
    have hrev := congrArg List.reverse hdata
    simp only [List.reverse_reverse] at hrev
    exact digEq a b (map_digitChar_inj _ _ (digits_all_lt a) (digits_all_lt b) hrev)

/-! ### The shape of one loop iteration -/

theorem processOne_shape (nj : Bool) (soup : Doc) (idx ref : Nat) (d2 : Doc) (b : Bool)
    (h : processOne nj soup idx ref = some (d2, b)) :
    ∃ href, getAttrOf soup ref "href" = some href ∧
      ((findById (soupIdAssigned soup idx ref) (noteIdOf href) = none ∧
          d2 = soupIdAssigned soup idx ref ∧ b = false) ∨
       ∃ nt, findById (soupIdAssigned soup idx ref) (noteIdOf href) = some nt ∧ b = true ∧
         ∃ s5, ((∃ pp, findParentP (soupMarked soup idx ref nt) nt = some pp ∧
                   s5 = soupMoved soup idx ref nt pp) ∨
                (findParentP (soupMarked soup idx ref nt) nt = none ∧
                   s5 = soupMarked soup idx ref nt)) ∧
           ((nj = false ∧ d2 = s5) ∨
            (nj = true ∧ ∃ rid, getAttrOf s5 ref "id" = some rid ∧
               d2 = soupJumped s5 idx nt rid))) := by
  cases hhref : getAttrOf soup ref "href" with
  | none =>
    simp only [processOne, hhref] at h
    exact Option.noConfusion h
  | some href =>
    refine ⟨href, rfl, ?_⟩
    simp only [processOne, hhref] at h
    cases hfind : findById (soupIdAssigned soup idx ref) (noteIdOf href) with
    | none =>
      simp only [hfind, Option.some.injEq, Prod.mk.injEq] at h
      exact Or.inl ⟨rfl, h.1.symm, h.2.symm⟩
    | some nt =>
      simp only [hfind] at h
      refine Or.inr ⟨nt, rfl, ?_⟩
      cases nj with
      | false =>
        rw [if_neg Bool.false_ne_true] at h
        cases hpp : findParentP (soupMarked soup idx ref nt) nt with
        | some pp =>
          simp only [hpp, Option.some.injEq, Prod.mk.injEq] at h
          exact ⟨h.2.symm, soupMoved soup idx ref nt pp, Or.inl ⟨pp, rfl, rfl⟩,
            Or.inl ⟨rfl, h.1.symm⟩⟩
        | none =>
          simp only [hpp, Option.some.injEq, Prod.mk.injEq] at h
          exact ⟨h.2.symm, soupMarked soup idx ref nt, Or.inr ⟨rfl, rfl⟩,
            Or.inl ⟨rfl, h.1.symm⟩⟩
      | true =>
        rw [if_pos rfl] at h
        cases hpp : findParentP (soupMarked soup idx ref nt) nt with
        | some pp =>
          simp only [hpp] at h
          split at h
          · exact Option.noConfusion h
          · rename_i rid hrid
            simp only [Option.some.injEq, Prod.mk.injEq] at h
            exact ⟨h.2.symm, soupMoved soup idx ref nt pp, Or.inl ⟨pp, rfl, rfl⟩,
              Or.inr ⟨rfl, rid, hrid, h.1.symm⟩⟩
        | none =>
          simp only [hpp] at h
          split at h
          · exact Option.noConfusion h
          · rename_i rid hrid
            simp only [Option.some.injEq, Prod.mk.injEq] at h
            exact ⟨h.2.symm, soupMarked soup idx ref nt, Or.inr ⟨rfl, rfl⟩,
              Or.inr ⟨rfl, rid, hrid, h.1.symm⟩⟩

/-! ### Identifier-attribute evolution across one iteration -/

theorem idAttr_soupMarked (soup : Doc) (idx ref nt : Nat) (m : Nat) :
    getAttrOf (soupMarked soup idx ref nt) m "id"
      = getAttrOf (soupIdAssigned soup idx ref) m "id" := by
  unfold soupMarked
  rw [getAttrOf_setAttr_other_key _ _ _ _ _ _ (by decide), getAttrOf_setName,
    getAttrOf_setString, getAttrOf_setAttr_other_key _ _ _ _ _ _ (by decide)]

theorem idAttr_soupMoved (soup : Doc) (idx ref nt pp : Nat) (m : Nat) :
    getAttrOf (soupMoved soup idx ref nt pp) m "id"
      = getAttrOf (soupMarked soup idx ref nt) m "id" := by
  unfold soupMoved
  rw [getAttrOf_extractNode, getAttrOf_insertAfter, getAttrOf_setString]

theorem getAttrE_linkTag_id (idx : Nat) (rid : String) : getAttrE (linkTag idx rid) "id" = none := by
  have : (("href" : String) == "id") = false := by decide
  simp [linkTag, getAttrE, List.find?, this]

theorem idAttr_soupJumped (s5 : Doc) (idx nt : Nat) (rid : String) (m : Nat) :
    getAttrOf (soupJumped s5 idx nt rid) m "id" = getAttrOf s5 m "id" := by
  unfold soupJumped
  rw [getAttrOf_insertBefore]
  by_cases hm : m = freshId s5
  · subst hm
    have h1 : lookupNode s5.store (freshId s5) = none :=
      lookupNode_of_gt_maxId _ _ (by simp [freshId])
    unfold getAttrOf pushNode
    rw [lookupNode_append_of_none _ _ _ h1, h1]
    have h2 : lookupNode [(freshId s5, linkTag idx rid)] (freshId s5) = some (linkTag idx rid) := by
      simp [lookupNode, List.find?]
    rw [h2]
    simp [getAttrE_linkTag_id]
  · exact getAttrOf_pushNode _ _ _ _ _ hm

theorem processOne_id_other (nj : Bool) (soup : Doc) (idx ref : Nat) (d2 : Doc) (b : Bool)
    (h : processOne nj soup idx ref = some (d2, b)) (m : Nat) (hm : m ≠ ref) :
    getAttrOf d2 m "id" = getAttrOf soup m "id" := by
  obtain ⟨href, hhref, hcase⟩ := processOne_shape nj soup idx ref d2 b h
  have hbase : getAttrOf (soupIdAssigned soup idx ref) m "id" = getAttrOf soup m "id" :=
    getAttrOf_setAttr_other_node _ _ _ _ _ _ hm
  rcases hcase with ⟨_, hd, _⟩ | ⟨nt, hnt, hb, s5, hs5, hjump⟩
  · rw [hd]
    exact hbase
  · have h5 : getAttrOf s5 m "id" = getAttrOf soup m "id" := by
      rcases hs5 with ⟨pp, _, hs⟩ | ⟨_, hs⟩
      · rw [hs, idAttr_soupMoved, idAttr_soupMarked]
        exact hbase
      · rw [hs, idAttr_soupMarked]
        exact hbase
    rcases hjump with ⟨_, hd⟩ | ⟨_, rid, hrid, hd⟩
    · rw [hd]
      exact h5
    · rw [hd, idAttr_soupJumped]
      exact h5

theorem childrenOf_soupIdAssigned (soup : Doc) (idx ref : Nat) (j : Nat) :
    childrenOf (soupIdAssigned soup idx ref).store j = childrenOf soup.store j :=
  childrenOf_setAttr soup ref "id" _ j

theorem getAttrOf_soupIdAssigned_other_key (soup : Doc) (idx ref : Nat) (j : Nat) (k : String)
    (hk : k ≠ "id") : getAttrOf (soupIdAssigned soup idx ref) j k = getAttrOf soup j k :=
  getAttrOf_setAttr_other_key soup ref "id" _ j k hk

theorem lookupNode_soupIdAssigned_other (soup : Doc) (idx ref : Nat) (j : Nat) (hj : j ≠ ref) :
    lookupNode (soupIdAssigned soup idx ref).store j = lookupNode soup.store j := by
  have h := lookupNode_updateNode soup.store ref
    (fun nd => setAttrE nd "id" ("nootref" ++ natStr idx)) j
  rw [if_neg hj] at h
  exact h

theorem processOne_id_ref (nj : Bool) (soup : Doc) (idx ref : Nat) (d2 : Doc) (b : Bool)
    (h : processOne nj soup idx ref = some (d2, b)) :
    getAttrOf d2 ref "id" = some ("nootref" ++ natStr idx) := by
  obtain ⟨href, hhref, hcase⟩ := processOne_shape nj soup idx ref d2 b h
  obtain ⟨nd, hnd⟩ := getAttrOf_some_lookup soup ref "href" href hhref
  have hbase : getAttrOf (soupIdAssigned soup idx ref) ref "id"
      = some ("nootref" ++ natStr idx) :=
    getAttrOf_setAttr_self soup ref "id" _ nd hnd
  rcases hcase with ⟨_, hd, _⟩ | ⟨nt, hnt, hb, s5, hs5, hjump⟩
  · rw [hd]
    exact hbase
  · have h5 : getAttrOf s5 ref "id" = some ("nootref" ++ natStr idx) := by
      rcases hs5 with ⟨pp, _, hs⟩ | ⟨_, hs⟩
      · rw [hs, idAttr_soupMoved, idAttr_soupMarked]
        exact hbase
      · rw [hs, idAttr_soupMarked]
        exact hbase
    rcases hjump with ⟨_, hd⟩ | ⟨_, rid, hrid, hd⟩
    · rw [hd]
      exact h5
    · rw [hd, idAttr_soupJumped]
      exact h5

/-! ### The candidate loop -/

theorem processAllAux_cons (nj : Bool) (d : Doc) (i r : Nat) (rest : List Nat) :
    processAllAux nj d i (r :: rest) =
      (processOne nj d i r).bind (fun p =>
        (processAllAux nj p.1 (i + 1) rest).map (fun q =>
          (q.1, (bif p.2 then 1 else 0) + q.2))) := by
  cases hp : processOne nj d i r with
  | none => simp [processAllAux, hp]
  | some p =>
    obtain ⟨d1, b⟩ := p
    cases haux : processAllAux nj d1 (i + 1) rest with
    | none => simp [processAllAux, hp, haux]
    | some q => simp [processAllAux, hp, haux]

theorem processAllAux_append (nj : Bool) (l t : List Nat) : ∀ (d : Doc) (i : Nat),
    processAllAux nj d i (l ++ t) =
      (processAllAux nj d i l).bind (fun p =>
        (processAllAux nj p.1 (i + l.length) t).map (fun q => (q.1, p.2 + q.2))) := by
  induction l with
  | nil =>
    intro d i
    show processAllAux nj d i t
      = (processAllAux nj d (i + ([] : List Nat).length) t).map (fun q => (q.1, 0 + q.2))
    cases haux : processAllAux nj d i t with
    | none =>
      rw [show i + ([] : List Nat).length = i from rfl, haux]
      rfl
    | some q =>
      rw [show i + ([] : List Nat).length = i from rfl, haux, Option.map_some']
      simp
  | cons r l ih =>
    intro d i
    rw [List.cons_append, processAllAux_cons, processAllAux_cons]
    cases hp : processOne nj d i r with
    | none => rfl
    | some p =>
      obtain ⟨d1, b⟩ := p
      simp only [Option.some_bind]
      rw [ih d1 (i + 1)]
      cases haux : processAllAux nj d1 (i + 1) l with
      | none => rfl
      | some q =>
        obtain ⟨d2, c⟩ := q
        simp only [Option.some_bind, Option.map_some']
        have hlen : i + 1 + l.length = i + (r :: l).length := by
          simp [List.length_cons]
          omega
        rw [hlen]
        cases hend : processAllAux nj d2 (i + (r :: l).length) t with
        | none => rfl
        | some w =>
          obtain ⟨d3, c3⟩ := w
          simp only [Option.map_some', Option.some_bind]
          have hassoc : (bif b then 1 else 0) + (c + c3) = ((bif b then 1 else 0) + c) + c3 := by
            omega
          rw [hassoc]

theorem lastIdxFrom_none_not_mem : ∀ (refs : List Nat) (i0 m : Nat),
    lastIdxFrom i0 refs m = none → m ∉ refs := by
  intro refs
  induction refs with
  | nil => intro i0 m _ hmem; cases hmem
  | cons r rest ih =>
    intro i0 m h hmem
    unfold lastIdxFrom at h
    cases hl : lastIdxFrom (i0 + 1) rest m with
    | some k => rw [hl] at h; cases h
    | none =>
      rw [hl] at h
      rcases List.mem_cons.mp hmem with h1 | h1
      · rw [if_pos h1.symm] at h
        cases h
      · exact ih (i0 + 1) m hl h1

theorem lastIdxFrom_spec : ∀ (refs : List Nat) (i0 m k : Nat),
    lastIdxFrom i0 refs m = some k →
      i0 ≤ k ∧ ∃ pre post, refs = pre ++ m :: post ∧ pre.length = k - i0 ∧ m ∉ post := by
  intro refs
  induction refs with
  | nil => intro i0 m k h; cases h
  | cons r rest ih =>
    intro i0 m k h
    unfold lastIdxFrom at h
    cases hl : lastIdxFrom (i0 + 1) rest m with
    | some k2 =>
      rw [hl] at h
      cases h
      obtain ⟨hk, pre, post, hsplit, hlen, hnot⟩ := ih (i0 + 1) m k hl
      refine ⟨by omega, r :: pre, post, by rw [hsplit, List.cons_append], ?_, hnot⟩
      simp only [List.length_cons]
      omega
    | none =>
      rw [hl] at h
      by_cases hr : r = m
      · rw [if_pos hr] at h
        cases h
        subst hr
        exact ⟨le_refl _, [], rest, rfl, by simp, lastIdxFrom_none_not_mem rest (i0 + 1) r hl⟩
      · rw [if_neg hr] at h
        cases h

theorem processAllAux_idMap (nj : Bool) : ∀ (refs : List Nat) (d : Doc) (i0 : Nat)
    (d2 : Doc) (c : Nat), processAllAux nj d i0 refs = some (d2, c) → ∀ m,
      getAttrOf d2 m "id" =
        (match lastIdxFrom i0 refs m with
         | some k => some ("nootref" ++ natStr k)
         | none => getAttrOf d m "id") := by
  intro refs
  induction refs with
  | nil =>
    intro d i0 d2 c h m
    have h1 : some (d, 0) = some (d2, c) := h
    cases h1
    rfl
  | cons r rest ih =>
    intro d i0 d2 c h m
    rw [processAllAux_cons] at h
    cases hp : processOne nj d i0 r with
    | none =>
      rw [hp] at h
      exact Option.noConfusion h
    | some p =>
      obtain ⟨d1, b⟩ := p
      rw [hp] at h
      simp only [Option.some_bind] at h
      cases haux : processAllAux nj d1 (i0 + 1) rest with
      | none =>
        rw [haux] at h
        exact Option.noConfusion h
      | some q =>
        obtain ⟨dq, cq⟩ := q
        rw [haux] at h
        simp only [Option.map_some', Option.some.injEq, Prod.mk.injEq] at h
        have hdq : dq = d2 := h.1
        subst hdq
        have hrec := ih d1 (i0 + 1) dq cq haux m
        show getAttrOf dq m "id" = _
        unfold lastIdxFrom
        cases hl : lastIdxFrom (i0 + 1) rest m with
        | some k =>
          rw [hl] at hrec
          simpa using hrec
        | none =>
          rw [hl] at hrec
          by_cases hr : r = m
          · subst hr
            simp only [if_pos rfl]
            rw [hrec]
            exact processOne_id_ref nj d i0 r d1 b hp
          · simp only [if_neg hr]
            rw [hrec]
            exact processOne_id_other nj d i0 r d1 b hp m (fun hh => hr hh.symm)

/-! ### Lookup through single mutations -/

theorem lookupNode_setAttr_self (d : Doc) (i : Nat) (k v : String) (nd : ElemData)
    (h : lookupNode d.store i = some nd) :
    lookupNode (setAttr d i k v).store i = some (setAttrE nd k v) := by
  have hu := lookupNode_updateNode d.store i (fun x => setAttrE x k v) i
  rw [if_pos rfl, h] at hu
  exact hu

theorem lookupNode_setAttr_other (d : Doc) (i : Nat) (k v : String) (j : Nat) (hj : j ≠ i) :
    lookupNode (setAttr d i k v).store j = lookupNode d.store j := by
  have hu := lookupNode_updateNode d.store i (fun x => setAttrE x k v) j
  rw [if_neg hj] at hu
  exact hu

theorem lookupNode_setString_other (d : Doc) (i : Nat) (s : String) (j : Nat) (hj : j ≠ i) :
    lookupNode (setString d i s).store j = lookupNode d.store j := by
  have hu := lookupNode_updateNode d.store i
    (fun nd => { nd with children := [Child.textNode s] }) j
  rw [if_neg hj] at hu
  exact hu

theorem lookupNode_setName_other (d : Doc) (i : Nat) (t : String) (j : Nat) (hj : j ≠ i) :
    lookupNode (setName d i t).store j = lookupNode d.store j := by
  have hu := lookupNode_updateNode d.store i (fun nd => { nd with tag := t }) j
  rw [if_neg hj] at hu
  exact hu

theorem lookupNode_pushNode_ne (d : Doc) (i : Nat) (nd : ElemData) (j : Nat) (hj : j ≠ i) :
    lookupNode (pushNode d i nd).store j = lookupNode d.store j := by
  unfold pushNode
  cases hl : lookupNode d.store j with
  | some nd2 => exact lookupNode_append_of_some _ _ _ _ hl
  | none =>
    rw [lookupNode_append_of_none _ _ _ hl]
    simp only [lookupNode, List.find?]
    have : (i == j) = false := by simpa using fun hh => hj hh.symm
    simp [this]

theorem tagOf_pushNode_ne (d : Doc) (i : Nat) (nd : ElemData) (j : Nat) (hj : j ≠ i) :
    tagOf (pushNode d i nd) j = tagOf d j := by
  unfold tagOf
  rw [lookupNode_pushNode_ne d i nd j hj]

theorem childrenOf_pushNode_ne (d : Doc) (i : Nat) (nd : ElemData) (j : Nat) (hj : j ≠ i) :
    childrenOf (pushNode d i nd).store j = childrenOf d.store j := by
  unfold childrenOf
  rw [lookupNode_pushNode_ne d i nd j hj]

/-! ### Identity bounds across mutations -/

theorem maxId_mapKeep (st : Store) (g : Nat → ElemData → ElemData) :
    maxId (st.map (fun e => (e.1, g e.1 e.2))) = maxId st := by
  induction st with
  | nil => rfl
  | cons e st ih => simp [maxId, List.foldr] at ih ⊢; rw [ih]

theorem maxId_updateNode (st : Store) (i : Nat) (f : ElemData → ElemData) :
    maxId (updateNode st i f) = maxId st := by
  rw [updateNode_eq_map]
  exact maxId_mapKeep st (fun k v => if k == i then f v else v)

theorem maxId_setAttr (d : Doc) (i : Nat) (k v : String) :
    maxId (setAttr d i k v).store = maxId d.store :=
  maxId_updateNode d.store i (fun nd => setAttrE nd k v)

theorem maxId_setName (d : Doc) (i : Nat) (t : String) :
    maxId (setName d i t).store = maxId d.store :=
  maxId_updateNode d.store i (fun nd => { nd with tag := t })

theorem maxId_setString (d : Doc) (i : Nat) (s : String) :
    maxId (setString d i s).store = maxId d.store :=
  maxId_updateNode d.store i (fun nd => { nd with children := [Child.textNode s] })

theorem maxId_eraseRef (st : Store) (x : Nat) : maxId (eraseRef st x) = maxId st :=
  maxId_mapKeep st
    (fun _ nd => { nd with children := nd.children.filter (fun c => c != Child.elemRef x) })

theorem maxId_extractNode (d : Doc) (x : Nat) : maxId (extractNode d x).store = maxId d.store :=
  maxId_eraseRef d.store x

theorem maxId_insertAfter (d : Doc) (t x : Nat) :
    maxId (insertAfter d t x).store = maxId d.store := by
  unfold insertAfter
  refine (maxId_mapKeep (eraseRef d.store x)
    (fun _ nd => { nd with children := insAfterL nd.children t x })).trans ?_
  exact maxId_eraseRef d.store x

theorem maxId_insertBefore (d : Doc) (t x : Nat) :
    maxId (insertBefore d t x).store = maxId d.store := by
  unfold insertBefore
  refine (maxId_mapKeep (eraseRef d.store x)
    (fun _ nd => { nd with children := insBeforeL nd.children t x })).trans ?_
  exact maxId_eraseRef d.store x

theorem maxId_soupIdAssigned (soup : Doc) (idx ref : Nat) :
    maxId (soupIdAssigned soup idx ref).store = maxId soup.store :=
  maxId_setAttr soup ref "id" _

theorem maxId_soupMarked (soup : Doc) (idx ref nt : Nat) :
    maxId (soupMarked soup idx ref nt).store = maxId soup.store := by
  unfold soupMarked
  rw [maxId_setAttr, maxId_setName, maxId_setString, maxId_setAttr, maxId_soupIdAssigned]

theorem maxId_soupMoved (soup : Doc) (idx ref nt pp : Nat) :
    maxId (soupMoved soup idx ref nt pp).store = maxId soup.store := by
  unfold soupMoved
  rw [maxId_extractNode, maxId_insertAfter, maxId_setString, maxId_soupMarked]

/-! ### Attribute and tag values established by the marking stage -/

theorem getAttrOf_soupMarked_any (soup : Doc) (idx ref nt : Nat) (m : Nat) (k : String)
    (hk1 : k ≠ "id") (hk2 : k ≠ "epub:type") :
    getAttrOf (soupMarked soup idx ref nt) m k = getAttrOf soup m k := by
  unfold soupMarked
  rw [getAttrOf_setAttr_other_key _ _ _ _ _ _ hk2, getAttrOf_setName, getAttrOf_setString,
    getAttrOf_setAttr_other_key _ _ _ _ _ _ hk2]
  exact getAttrOf_soupIdAssigned_other_key soup idx ref m k hk1

theorem markedRef_etype (soup : Doc) (idx ref nt : Nat) (nd0 : ElemData)
    (hne : ref ≠ nt) (hnd0 : lookupNode soup.store ref = some nd0) :
    getAttrOf (soupMarked soup idx ref nt) ref "epub:type" = some "noteref" := by
  unfold soupMarked
  rw [getAttrOf_setAttr_other_node _ _ _ _ _ _ hne, getAttrOf_setName, getAttrOf_setString]
  exact getAttrOf_setAttr_self _ _ _ _ _
    (lookupNode_setAttr_self soup ref "id" ("nootref" ++ natStr idx) nd0 hnd0)

theorem markedRef_children (soup : Doc) (idx ref nt : Nat) (nd0 : ElemData)
    (hne : ref ≠ nt) (hnd0 : lookupNode soup.store ref = some nd0) :
    childrenOf (soupMarked soup idx ref nt).store ref = [Child.textNode "㊟"] := by
  unfold soupMarked
  rw [childrenOf_setAttr, childrenOf_setName]
  exact childrenOf_setString_self _ _ _ _
    (lookupNode_setAttr_self _ ref "epub:type" "noteref" _
      (lookupNode_setAttr_self soup ref "id" ("nootref" ++ natStr idx) nd0 hnd0))

theorem markedNt_tag (soup : Doc) (idx ref nt : Nat) (ndt : ElemData)
    (hne : nt ≠ ref) (hndt : lookupNode (soupIdAssigned soup idx ref).store nt = some ndt) :
    tagOf (soupMarked soup idx ref nt) nt = some "aside" := by
  unfold soupMarked
  rw [tagOf_setAttr]
  refine tagOf_setName_self _ _ _ ndt ?_
  rw [lookupNode_setString_other _ _ _ _ hne, lookupNode_setAttr_other _ _ _ _ _ hne]
  exact hndt

theorem markedNt_etype (soup : Doc) (idx ref nt : Nat) (ndt : ElemData)
    (hne : nt ≠ ref) (hndt : lookupNode (soupIdAssigned soup idx ref).store nt = some ndt) :
    getAttrOf (soupMarked soup idx ref nt) nt "epub:type" = some "footnote" := by
  unfold soupMarked
  refine getAttrOf_setAttr_self _ _ _ _ ({ ndt with tag := "aside" }) ?_
  have h1 : lookupNode (setString (setAttr (soupIdAssigned soup idx ref)
      ref "epub:type" "noteref") ref "㊟").store nt = some ndt := by
    rw [lookupNode_setString_other _ _ _ _ hne, lookupNode_setAttr_other _ _ _ _ _ hne]
    exact hndt
  have hu := lookupNode_updateNode (setString (setAttr (soupIdAssigned soup idx ref)
      ref "epub:type" "noteref") ref "㊟").store nt (fun nd => { nd with tag := "aside" }) nt
  rw [if_pos rfl, h1] at hu
  exact hu

/-! ### Transport through the move and jump stages -/

theorem getAttrOf_soupMoved_any (soup : Doc) (idx ref nt pp : Nat) (m : Nat) (k : String) :
    getAttrOf (soupMoved soup idx ref nt pp) m k
      = getAttrOf (soupMarked soup idx ref nt) m k := by
  unfold soupMoved
  rw [getAttrOf_extractNode, getAttrOf_insertAfter, getAttrOf_setString]

theorem tagOf_soupMoved (soup : Doc) (idx ref nt pp : Nat) (m : Nat) :
    tagOf (soupMoved soup idx ref nt pp) m = tagOf (soupMarked soup idx ref nt) m := by
  unfold soupMoved
  rw [tagOf_extractNode, tagOf_insertAfter, tagOf_setString]

theorem filter_textNode_singleton (s : String) (x : Nat) :
    ([Child.textNode s].filter (fun c => c != Child.elemRef x)) = [Child.textNode s] := rfl

theorem insAfterL_textNode_singleton (s : String) (t x : Nat) :
    insAfterL [Child.textNode s] t x = [Child.textNode s] := rfl

theorem insBeforeL_textNode_singleton (s : String) (t x : Nat) :
    insBeforeL [Child.textNode s] t x = [Child.textNode s] := rfl

theorem childrenOf_soupMoved_textonly (soup : Doc) (idx ref nt pp : Nat) (j : Nat) (s : String)
    (hj : j ≠ nt)
    (hch : childrenOf (soupMarked soup idx ref nt).store j = [Child.textNode s]) :
    childrenOf (soupMoved soup idx ref nt pp).store j = [Child.textNode s] := by
  unfold soupMoved
  rw [childrenOf_extractNode, childrenOf_insertAfter, childrenOf_setString_other _ _ _ _ hj,
    hch, filter_textNode_singleton, insAfterL_textNode_singleton, filter_textNode_singleton]

theorem getAttrOf_soupJumped_le (s5 : Doc) (idx nt : Nat) (rid : String) (m : Nat) (k : String)
    (hm : m ≤ maxId s5.store) :
    getAttrOf (soupJumped s5 idx nt rid) m k = getAttrOf s5 m k := by
  unfold soupJumped
  rw [getAttrOf_insertBefore]
  exact getAttrOf_pushNode _ _ _ _ _ (by simp [freshId]; omega)

theorem tagOf_soupJumped_le (s5 : Doc) (idx nt : Nat) (rid : String) (m : Nat)
    (hm : m ≤ maxId s5.store) :
    tagOf (soupJumped s5 idx nt rid) m = tagOf s5 m := by
  unfold soupJumped
  rw [tagOf_insertBefore]
  exact tagOf_pushNode_ne _ _ _ _ (by simp [freshId]; omega)

theorem childrenOf_soupJumped_textonly (s5 : Doc) (idx nt : Nat) (rid : String) (j : Nat)
    (s : String) (hj : j ≠ nt) (hm : j ≤ maxId s5.store)
    (hch : childrenOf s5.store j = [Child.textNode s]) :
    childrenOf (soupJumped s5 idx nt rid).store j = [Child.textNode s] := by
  unfold soupJumped
  rw [childrenOf_insertBefore, childrenOf_pushNode_ne _ _ _ _ (by simp [freshId]; omega),
    hch, filter_textNode_singleton, insBeforeL_textNode_singleton]

/-! ### Child-list surgery lemmas -/

theorem textNode_bne_elemRef (s : String) (x : Nat) :
    (Child.textNode s != Child.elemRef x) = true := rfl

theorem elemRef_bne_of_ne (x y : Nat) (h : x ≠ y) :
    (Child.elemRef x != Child.elemRef y) = true := by
  simp [bne]
  exact h

theorem child_bne_elemRef_of_ne (c : Child) (x : Nat) (h : c ≠ Child.elemRef x) :
    (c != Child.elemRef x) = true := by
  simpa using h

theorem not_mem_filter_self_ref (cs : List Child) (x : Nat) :
    Child.elemRef x ∉ cs.filter (fun c => c != Child.elemRef x) := by
  intro h
  have := List.of_mem_filter h
  simp [bne] at this

theorem filter_ref_eq_self (cs : List Child) (x : Nat) (h : Child.elemRef x ∉ cs) :
    cs.filter (fun c => c != Child.elemRef x) = cs :=
  List.filter_eq_self.mpr (fun c hc => child_bne_elemRef_of_ne c x (fun hcx => h (hcx ▸ hc)))

theorem insBeforeL_insert (cs1 cs2 : List Child) (t x : Nat) (h : Child.elemRef t ∉ cs1) :
    insBeforeL (cs1 ++ Child.elemRef t :: cs2) t x
      = cs1 ++ Child.elemRef x :: Child.elemRef t :: cs2 := by
  induction cs1 with
  | nil =>
    simp only [List.nil_append, insBeforeL, beq_self_eq_true, if_pos]
  | cons c cs1 ih =>
    have hc : c ≠ Child.elemRef t := fun hh => h (hh ▸ List.mem_cons_self _ _)
    have hb : (c == Child.elemRef t) = false := beq_eq_false_iff_ne.mpr hc
    simp only [List.cons_append, insBeforeL, hb, List.append_eq, Bool.false_eq_true, if_false]
    rw [ih (fun hm => h (List.mem_cons_of_mem _ hm))]

theorem insAfterL_insert (cs1 cs2 : List Child) (t x : Nat) (h : Child.elemRef t ∉ cs1) :
    insAfterL (cs1 ++ Child.elemRef t :: cs2) t x
      = cs1 ++ Child.elemRef t :: Child.elemRef x :: cs2 := by
  induction cs1 with
  | nil =>
    simp only [List.nil_append, insAfterL, beq_self_eq_true, if_pos]
  | cons c cs1 ih =>
    have hc : c ≠ Child.elemRef t := fun hh => h (hh ▸ List.mem_cons_self _ _)
    have hb : (c == Child.elemRef t) = false := beq_eq_false_iff_ne.mpr hc
    simp only [List.cons_append, insAfterL, hb, List.append_eq, Bool.false_eq_true, if_false]
    rw [ih (fun hm => h (List.mem_cons_of_mem _ hm))]

theorem isSome_lookupNode_updateNode (st : Store) (i : Nat) (f : ElemData → ElemData) (j : Nat) :
    (lookupNode (updateNode st i f) j).isSome = (lookupNode st j).isSome := by
  rw [lookupNode_updateNode]
  by_cases hj : j = i
  · rw [if_pos hj, hj]
    cases lookupNode st i <;> rfl
  · rw [if_neg hj]

theorem isSome_lookupNode_setAttr (d : Doc) (i : Nat) (k v : String) (j : Nat) :
    (lookupNode (setAttr d i k v).store j).isSome = (lookupNode d.store j).isSome :=
  isSome_lookupNode_updateNode d.store i (fun nd => setAttrE nd k v) j

theorem isSome_lookupNode_setName (d : Doc) (i : Nat) (t : String) (j : Nat) :
    (lookupNode (setName d i t).store j).isSome = (lookupNode d.store j).isSome :=
  isSome_lookupNode_updateNode d.store i (fun nd => { nd with tag := t }) j

theorem isSome_lookupNode_setString (d : Doc) (i : Nat) (s : String) (j : Nat) :
    (lookupNode (setString d i s).store j).isSome = (lookupNode d.store j).isSome :=
  isSome_lookupNode_updateNode d.store i (fun nd => { nd with children := [Child.textNode s] }) j

theorem lookupNode_soupMarked_exists (soup : Doc) (idx ref nt : Nat) (ndt : ElemData)
    (hndt : lookupNode (soupIdAssigned soup idx ref).store nt = some ndt) :
    ∃ nd, lookupNode (soupMarked soup idx ref nt).store nt = some nd := by
  rw [← Option.isSome_iff_exists]
  unfold soupMarked
  rw [isSome_lookupNode_setAttr, isSome_lookupNode_setName, isSome_lookupNode_setString,
    isSome_lookupNode_setAttr, hndt]
  rfl

theorem lookup_of_childrenOf_ne_nil (st : Store) (j : Nat) (h : childrenOf st j ≠ []) :
    ∃ nd, lookupNode st j = some nd := by
  cases hl : lookupNode st j with
  | none =>
    exfalso
    apply h
    unfold childrenOf
    rw [hl]
    rfl
  | some nd => exact ⟨nd, rfl⟩

theorem keys_mapKeep (st : Store) (g : Nat → ElemData → ElemData) :
    (st.map (fun e => (e.1, g e.1 e.2))).map (fun e => e.1) = st.map (fun e => e.1) := by
  rw [List.map_map]
  rfl

theorem keys_updateNode (st : Store) (i : Nat) (f : ElemData → ElemData) :
    (updateNode st i f).map (fun e => e.1) = st.map (fun e => e.1) := by
  rw [updateNode_eq_map]
  exact keys_mapKeep st (fun k v => if k == i then f v else v)

theorem keys_eraseRef (st : Store) (x : Nat) :
    (eraseRef st x).map (fun e => e.1) = st.map (fun e => e.1) :=
  keys_mapKeep st
    (fun _ nd => { nd with children := nd.children.filter (fun c => c != Child.elemRef x) })

theorem keys_setAttr (d : Doc) (i : Nat) (k v : String) :
    (setAttr d i k v).store.map (fun e => e.1) = d.store.map (fun e => e.1) :=
  keys_updateNode d.store i (fun nd => setAttrE nd k v)

theorem keys_setName (d : Doc) (i : Nat) (t : String) :
    (setName d i t).store.map (fun e => e.1) = d.store.map (fun e => e.1) :=
  keys_updateNode d.store i (fun nd => { nd with tag := t })

theorem keys_setString (d : Doc) (i : Nat) (s : String) :
    (setString d i s).store.map (fun e => e.1) = d.store.map (fun e => e.1) :=
  keys_updateNode d.store i (fun nd => { nd with children := [Child.textNode s] })

theorem keys_extractNode (d : Doc) (x : Nat) :
    (extractNode d x).store.map (fun e => e.1) = d.store.map (fun e => e.1) :=
  keys_eraseRef d.store x

theorem keys_insertAfter (d : Doc) (t x : Nat) :
    (insertAfter d t x).store.map (fun e => e.1) = d.store.map (fun e => e.1) := by
  unfold insertAfter
  refine (keys_mapKeep (eraseRef d.store x)
    (fun _ nd => { nd with children := insAfterL nd.children t x })).trans ?_
  exact keys_eraseRef d.store x

theorem keys_insertBefore (d : Doc) (t x : Nat) :
    (insertBefore d t x).store.map (fun e => e.1) = d.store.map (fun e => e.1) := by
  unfold insertBefore
  refine (keys_mapKeep (eraseRef d.store x)
    (fun _ nd => { nd with children := insBeforeL nd.children t x })).trans ?_
  exact keys_eraseRef d.store x

theorem keys_soupIdAssigned (soup : Doc) (idx ref : Nat) :
    (soupIdAssigned soup idx ref).store.map (fun e => e.1) = soup.store.map (fun e => e.1) :=
  keys_setAttr soup ref "id" ("nootref" ++ natStr idx)

theorem keys_soupMarked (soup : Doc) (idx ref nt : Nat) :
    (soupMarked soup idx ref nt).store.map (fun e => e.1) = soup.store.map (fun e => e.1) := by
  unfold soupMarked
  rw [keys_setAttr, keys_setName, keys_setString, keys_setAttr, keys_soupIdAssigned]

theorem keys_soupMoved (soup : Doc) (idx ref nt pp : Nat) :
    (soupMoved soup idx ref nt pp).store.map (fun e => e.1)
      = soup.store.map (fun e => e.1) := by
  unfold soupMoved
  rw [keys_extractNode, keys_insertAfter, keys_setString, keys_soupMarked]

/-! ### Fragment extraction and resolution outcomes -/

theorem takeWhile_append_all {α : Type} (p : α → Bool) :
    ∀ (l1 l2 : List α), (∀ c ∈ l1, p c = true) →
      (l1 ++ l2).takeWhile p = l1 ++ l2.takeWhile p := by
  intro l1
  induction l1 with
  | nil => intro l2 _; rfl
  | cons c l1 ih =>
    intro l2 h
    have hc : p c = true := h c (List.mem_cons_self _ _)
    simp only [List.cons_append, List.takeWhile_cons, hc]
    rw [ih l2 (fun x hx => h x (List.mem_cons_of_mem _ hx))]
    simp

theorem noteIdOf_suffix (pre post : String) (hpost : ('#' : Char) ∉ post.data) :
    noteIdOf (pre ++ "#" ++ post) = post := by
  unfold noteIdOf
  apply String.ext
  show ((pre ++ "#" ++ post).data.reverse.takeWhile (fun c => c != '#')).reverse = post.data
  have hdata : (pre ++ "#" ++ post).data = pre.data ++ ['#'] ++ post.data := by
    rw [String.data_append, String.data_append]
  rw [hdata]
  have hrev : (pre.data ++ ['#'] ++ post.data).reverse
      = post.data.reverse ++ '#' :: pre.data.reverse := by
    simp
  rw [hrev]
  have hall : ∀ c ∈ post.data.reverse, (c != '#') = true := by
    intro c hc
    have : c ∈ post.data := List.mem_reverse.mp hc
    have hne : c ≠ '#' := fun hh => hpost (hh ▸ this)
    simpa using hne
  rw [takeWhile_append_all _ post.data.reverse ('#' :: pre.data.reverse) hall]
  have hstop : (('#' :: pre.data.reverse).takeWhile (fun c => c != '#')) = [] := by
    simp [List.takeWhile_cons]
  rw [hstop]
  simp

/-- The points where one iteration of the loop can raise. -/
theorem processOne_none_shape (nj : Bool) (soup : Doc) (idx ref : Nat)
    (h : processOne nj soup idx ref = none) :
    getAttrOf soup ref "href" = none ∨
    (∃ href nt, getAttrOf soup ref "href" = some href ∧
      findById (soupIdAssigned soup idx ref) (noteIdOf href) = some nt ∧
      ((∃ pp, findParentP (soupMarked soup idx ref nt) nt = some pp ∧
          getAttrOf (soupMoved soup idx ref nt pp) ref "id" = none) ∨
       (findParentP (soupMarked soup idx ref nt) nt = none ∧
          getAttrOf (soupMarked soup idx ref nt) ref "id" = none))) := by
  cases hhref : getAttrOf soup ref "href" with
  | none => exact Or.inl rfl
  | some href =>
    simp only [processOne, hhref] at h
    cases hfind : findById (soupIdAssigned soup idx ref) (noteIdOf href) with
    | none =>
      simp only [hfind] at h
      exact Option.noConfusion h
    | some nt =>
      simp only [hfind] at h
      refine Or.inr ⟨href, nt, rfl, hfind, ?_⟩
      cases nj with
      | false =>
        rw [if_neg Bool.false_ne_true] at h
        cases hpp : findParentP (soupMarked soup idx ref nt) nt with
        | some pp => simp only [hpp] at h; exact Option.noConfusion h
        | none => simp only [hpp] at h; exact Option.noConfusion h
      | true =>
        rw [if_pos rfl] at h
        cases hpp : findParentP (soupMarked soup idx ref nt) nt with
        | some pp =>
          simp only [hpp] at h
          split at h
          · rename_i hrid
            exact Or.inl ⟨pp, rfl, hrid⟩
          · exact Option.noConfusion h
        | none =>
          simp only [hpp] at h
          split at h
          · rename_i hrid
            exact Or.inr ⟨rfl, hrid⟩
          · exact Option.noConfusion h

/-- A resolved candidate is always processed and counted. -/
theorem processOne_resolved (nj : Bool) (soup : Doc) (idx ref : Nat) (href : String) (nt : Nat)
    (h1 : getAttrOf soup ref "href" = some href)
    (h2 : findById (soupIdAssigned soup idx ref) (noteIdOf href) = some nt) :
    ∃ d2, processOne nj soup idx ref = some (d2, true) := by
  obtain ⟨nd, hnd⟩ := getAttrOf_some_lookup soup ref "href" href h1
  have hbase : getAttrOf (soupIdAssigned soup idx ref) ref "id"
      = some ("nootref" ++ natStr idx) :=
    getAttrOf_setAttr_self soup ref "id" _ nd hnd
  cases hres : processOne nj soup idx ref with
  | none =>
    rcases processOne_none_shape nj soup idx ref hres with hnone | ⟨href2, nt2, heq, hfind2, hbad⟩
    · rw [h1] at hnone
      exact Option.noConfusion hnone
    · rw [h1] at heq
      cases heq
      rw [h2] at hfind2
      cases hfind2
      rcases hbad with ⟨pp, _, hid⟩ | ⟨_, hid⟩
      · rw [idAttr_soupMoved, idAttr_soupMarked, hbase] at hid
        exact Option.noConfusion hid
      · rw [idAttr_soupMarked, hbase] at hid
        exact Option.noConfusion hid
  | some p =>
    obtain ⟨d2, b⟩ := p
    obtain ⟨href2, heq, hcase⟩ := processOne_shape nj soup idx ref d2 b hres
    rw [h1] at heq
    cases heq
    rcases hcase with ⟨hfind2, _, _⟩ | ⟨nt2, hfind2, hb, _⟩
    · rw [h2] at hfind2
      exact Option.noConfusion hfind2
    · exact ⟨d2, by rw [hb]⟩

/-! ### Claim C7 -/

/-- Claim C7: the target fragment identifier is the suffix of the link
attribute after its last `#`, and resolution looks up a node whose `id`
attribute equals that fragment, scanning the entire document: a successful
lookup returns a document-order descendant carrying the fragment as its
identifier, and a failed lookup means no node anywhere in the document
carries it; the loop skips exactly the failed lookups and processes
exactly the successful ones. -/
theorem C7_fragment_extraction_and_lookup (nj : Bool) (soup : Doc) (idx ref : Nat)
    (href : String) (h1 : getAttrOf soup ref "href" = some href) :
    (∀ pre post : String, href = pre ++ "#" ++ post → ('#' : Char) ∉ post.data →
      noteIdOf href = post)
    ∧ (∀ nt, findById (soupIdAssigned soup idx ref) (noteIdOf href) = some nt →
        nt ∈ Doc.descendants (soupIdAssigned soup idx ref)
        ∧ getAttrOf (soupIdAssigned soup idx ref) nt "id" = some (noteIdOf href))
    ∧ (findById (soupIdAssigned soup idx ref) (noteIdOf href) = none →
        (∀ n ∈ Doc.descendants (soupIdAssigned soup idx ref),
          getAttrOf (soupIdAssigned soup idx ref) n "id" ≠ some (noteIdOf href))
        ∧ processOne nj soup idx ref = some (soupIdAssigned soup idx ref, false))
    ∧ (∀ nt, findById (soupIdAssigned soup idx ref) (noteIdOf href) = some nt →
        ∃ d2, processOne nj soup idx ref = some (d2, true)) := by
  refine ⟨?_, ?_, ?_, ?_⟩
  · intro pre post hsplit hpost
    rw [hsplit]
    exact noteIdOf_suffix pre post hpost
  · intro nt hnt
    exact ⟨findById_mem _ _ nt hnt, findById_attr _ _ nt hnt⟩
  · intro hnone
    refine ⟨findById_none _ _ hnone, ?_⟩
    simp only [processOne, h1, hnone]
  · intro nt hnt
    exact processOne_resolved nj soup idx ref href nt h1 hnt

/-- Witness for C7 at `docNoP` (candidate 4, link `#Z1`, target node 3). -/
theorem C7_fragment_extraction_and_lookup_witness :
    noteIdOf "#Z1" = "Z1"
    ∧ (3 ∈ Doc.descendants (soupIdAssigned docNoP 1 4)
        ∧ getAttrOf (soupIdAssigned docNoP 1 4) 3 "id" = some (noteIdOf "#Z1"))
    ∧ (∃ d2, processOne false docNoP 1 4 = some (d2, true)) := by
  have h := C7_fragment_extraction_and_lookup false docNoP 1 4 "#Z1" (by decide)
  exact ⟨h.1 "" "Z1" (by decide) (by decide), h.2.1 3 (by decide), h.2.2.2 3 (by decide)⟩

/-! ### Claim C2 -/

/-- Counterexample to claim C2: on a document whose only candidate is the
dangling reference `<a class="footnote-ref" href="#nope" id="orig">`, the
engine still overwrites the candidate's `id` attribute with the generated
identifier `nootref1` before discovering that the target does not resolve,
so the candidate is not left entirely unmodified. -/
theorem C2_counterexample :
    (processOne false docDangling 1 3).map (fun p => (getAttrOf p.1 3 "id", p.2))
      = some (some "nootref1", false)
    ∧ getAttrOf docDangling 3 "id" = some "orig" := by
  constructor
  · decide
  · decide

/-- Claim C2, amended: when a candidate's target fragment resolves to no
node, the engine skips all rewriting for that candidate except that the
candidate's `id` attribute has already been set to the generated
identifier (line 81 runs before the resolution check at line 83); the
candidate's text content and its other attributes are unchanged, every
other node is untouched, and the candidate is counted as not rewritten. -/
theorem C2_unresolved_candidate_skipped (nj : Bool) (soup : Doc) (idx ref : Nat) (href : String)
    (h1 : getAttrOf soup ref "href" = some href)
    (h2 : findById (soupIdAssigned soup idx ref) (noteIdOf href) = none) :
    processOne nj soup idx ref = some (soupIdAssigned soup idx ref, false)
    ∧ childrenOf (soupIdAssigned soup idx ref).store ref = childrenOf soup.store ref
    ∧ (∀ k, k ≠ "id" → getAttrOf (soupIdAssigned soup idx ref) ref k = getAttrOf soup ref k)
    ∧ (∀ m, m ≠ ref → lookupNode (soupIdAssigned soup idx ref).store m = lookupNode soup.store m) := by
  refine ⟨?_, childrenOf_soupIdAssigned soup idx ref ref,
    fun k hk => getAttrOf_soupIdAssigned_other_key soup idx ref ref k hk,
    fun m hm => lookupNode_soupIdAssigned_other soup idx ref m hm⟩
  simp only [processOne, h1, h2]

/-- Witness for C2 at the concrete dangling-reference document. -/
theorem C2_unresolved_candidate_skipped_witness :
    processOne false docDangling 1 3 = some (soupIdAssigned docDangling 1 3, false)
    ∧ getAttrOf (soupIdAssigned docDangling 1 3) 3 "class"
        = getAttrOf docDangling 3 "class" := by
  have h := C2_unresolved_candidate_skipped false docDangling 1 3 "#nope"
    (by decide) (by decide)
  exact ⟨h.1, h.2.2.1 "class" (by decide)⟩

/-! ### Claim C3 -/

/-- Counterexample to claim C3: in `docShadow` the second candidate's
target fragment is `B`, which against the original document resolves to
node 3; after the first candidate (node 3 itself) is rewritten, its
identifier is overwritten with `nootref1`, so the later lookup of `B`
returns nothing, and the whole run rewrites only 2 of the 4 candidate
occurrences although every target resolves against the original document. -/
theorem C3_counterexample :
    footrefsAuto docShadow = [3, 4, 3, 4]
    ∧ findById docShadow "B" = some 3
    ∧ (processOne false docShadow 1 3).map (fun p => findById p.1 "B") = some none
    ∧ (processAll false docShadow (footrefsAuto docShadow)).map (fun p => p.2) = some 2 := by
  refine ⟨by decide, by decide, by decide, by decide⟩

/-- Claim C3, amended: a candidate's rewrite assigns an identifier only to
that candidate's reference node — the `id` attribute of every other node
(and of every newly created node) is unchanged — but this does not make
later resolution agree with the original document: a later lookup can
still change when the looked-up identifier was carried by an earlier
candidate's reference node (overwritten by the generated identifier) or by
a node detached together with an earlier pair's paragraph ancestor. -/
theorem C3_rewrite_assigns_ids_only_to_reference (nj : Bool) (soup : Doc) (idx ref : Nat)
    (d2 : Doc) (b : Bool) (h : processOne nj soup idx ref = some (d2, b)) :
    (∀ m, m ≠ ref → getAttrOf d2 m "id" = getAttrOf soup m "id")
    ∧ getAttrOf d2 ref "id" = some ("nootref" ++ natStr idx) :=
  ⟨fun m hm => processOne_id_other nj soup idx ref d2 b h m hm,
   processOne_id_ref nj soup idx ref d2 b h⟩

/-- Witness for C3 at the concrete dangling-reference document. -/
theorem C3_rewrite_assigns_ids_only_to_reference_witness :
    getAttrOf (soupIdAssigned docDangling 1 3) 2 "id" = getAttrOf docDangling 2 "id"
    ∧ getAttrOf (soupIdAssigned docDangling 1 3) 3 "id" = some ("nootref" ++ natStr 1) := by
  have h := C3_rewrite_assigns_ids_only_to_reference false docDangling 1 3
    (soupIdAssigned docDangling 1 3) false (by decide)
  exact ⟨h.1 2 (by decide), h.2⟩

/-! ### Claim C5 -/

/-- Counterexample to claim C5: on a document with zero candidates the
engine returns the input markup exactly as received (line 71 returns
`html_content`, not a serialization of the mutated tree), so the EPUB
namespace declaration is NOT added to the returned markup — even though
serializing the namespace-annotated tree would have contained it. -/
theorem C5_counterexample :
    create_popup_footnotes false true defaultSelector parseNoFoot noFootHtml = some noFootHtml
    ∧ Doc.toStr docNoFoot = noFootHtml
    ∧ strContains noFootHtml "xmlns:epub" = false
    ∧ strContains
        (Doc.toStr (setAttr docNoFoot 1 "xmlns:epub" "http://www.idpf.org/2007/ops"))
        "xmlns:epub" = true := by
  refine ⟨by decide, by decide, by decide, by decide⟩

/-- Claim C5, amended: for every document with zero candidates, the engine
returns the input markup textually unchanged — with no namespace addition
visible in the output, since the zero-candidate path returns the original
string rather than serializing the tree — performs no note-list cleanup,
and this outcome is not an error. -/
theorem C5_no_candidates_returns_input_unchanged (need_jump auto : Bool) (sel : Selector)
    (parse : String → Doc) (html_content : String) (hnode : Nat) (soupNs : Doc)
    (hhtml : findHtml (parse html_content) = some hnode)
    (hsoup : soupNs = (if hasAttr (parse html_content) hnode "xmlns:epub"
      then parse html_content
      else setAttr (parse html_content) hnode "xmlns:epub" "http://www.idpf.org/2007/ops"))
    (hempty : findFootrefs auto sel soupNs = []) :
    create_popup_footnotes need_jump auto sel parse html_content = some html_content := by
  simp only [create_popup_footnotes, hhtml]
  rw [← hsoup, hempty]
  rfl

/-- Witness for C5 at the concrete no-footnote document. -/
theorem C5_no_candidates_returns_input_unchanged_witness :
    create_popup_footnotes true true defaultSelector parseNoFoot noFootHtml
      = some noFootHtml :=
  C5_no_candidates_returns_input_unchanged true true defaultSelector parseNoFoot noFootHtml
    1 (setAttr docNoFoot 1 "xmlns:epub" "http://www.idpf.org/2007/ops")
    (by decide) (by decide) (by decide)

/-! ### Claim C6 -/

theorem foldl_append_flatten {α β : Type} (f : α → List β) (L : List α) :
    ∀ acc, L.foldl (fun a s => a ++ f s) acc = acc ++ (L.map f).flatten := by
  induction L with
  | nil => intro acc; simp
  | cons s L ih =>
    intro acc
    simp only [List.foldl_cons, List.map_cons, List.flatten_cons]
    rw [ih]
    rw [List.append_assoc]

theorem selectDoc_sublist (d : Doc) (sel : Selector) :
    List.Sublist (selectDoc d sel) (Doc.descendants d) := by
  unfold selectDoc Doc.descendants
  exact List.Sublist.map (fun pr => pr.1) (List.filter_sublist d.walk)

theorem sum_indicator_eq_filter_length {α : Type} (P : α → Prop) [DecidablePred P] :
    ∀ L : List α, (L.map (fun s => if P s then 1 else 0)).sum
      = (L.filter (fun s => decide (P s))).length := by
  intro L
  induction L with
  | nil => rfl
  | cons s L ih =>
    by_cases h : P s
    · simp [h, ih, Nat.add_comm]
    · simp [h, ih]

/-- Claim C6: the automatic-mode candidate sequence is the concatenation,
in rule-declaration order, of each built-in rule's matches; a node matched
by several rules occurs once per matching rule (so its occurrence count in
the sequence equals the number of matching rules, duplicated rules counted
per occurrence); and the loop processes the candidate at zero-based
position `|l|` with the 1-based sequence index `1 + |l|`, each occurrence
independently. -/
theorem C6_automatic_mode_sequence_and_indices (d : Doc) (n : Nat) (nj : Bool)
    (l t : List Nat) (r : Nat) (hnodup : (Doc.descendants d).Nodup) :
    footrefsAuto d = (foot_ref_tags_selectors.map (selectDoc d)).flatten
    ∧ (footrefsAuto d).count n
        = (foot_ref_tags_selectors.filter (fun s => decide (n ∈ selectDoc d s))).length
    ∧ processAll nj d (l ++ r :: t)
        = (processAllAux nj d 1 l).bind (fun p =>
            (processOne nj p.1 (1 + l.length) r).bind (fun w =>
              (processAllAux nj w.1 (1 + l.length + 1) t).map (fun q =>
                (q.1, p.2 + ((bif w.2 then 1 else 0) + q.2))))) := by
  have hflat : footrefsAuto d = (foot_ref_tags_selectors.map (selectDoc d)).flatten := by
    unfold footrefsAuto
    rw [foldl_append_flatten (selectDoc d) foot_ref_tags_selectors []]
    rfl
  refine ⟨hflat, ?_, ?_⟩
  · rw [hflat, List.count_flatten, List.map_map]
    have hone : ∀ sel : Selector, (selectDoc d sel).count n
        = if n ∈ selectDoc d sel then 1 else 0 := by
      intro sel
      have hnd : (selectDoc d sel).Nodup := hnodup.sublist (selectDoc_sublist d sel)
      by_cases hm : n ∈ selectDoc d sel
      · rw [if_pos hm]
        exact List.count_eq_one_of_mem hnd hm
      · rw [if_neg hm]
        exact List.count_eq_zero_of_not_mem hm
    have hmapeq : (foot_ref_tags_selectors.map (List.count n ∘ selectDoc d))
        = foot_ref_tags_selectors.map (fun s => if n ∈ selectDoc d s then 1 else 0) := by
      apply List.map_congr_left
      intro s _
      exact hone s
    rw [hmapeq, sum_indicator_eq_filter_length (fun s => n ∈ selectDoc d s)]
  · rw [show processAll nj d (l ++ r :: t) = processAllAux nj d 1 (l ++ r :: t) from rfl,
      processAllAux_append nj l (r :: t) d 1]
    cases hA : processAllAux nj d 1 l with
    | none => rfl
    | some p =>
      obtain ⟨d1, c1⟩ := p
      simp only [Option.some_bind]
      rw [processAllAux_cons]
      cases hB : processOne nj d1 (1 + l.length) r with
      | none => rfl
      | some w =>
        obtain ⟨dw, b⟩ := w
        simp only [Option.some_bind]
        cases hC : processAllAux nj dw (1 + l.length + 1) t with
        | none => rfl
        | some q =>
          obtain ⟨dq, cq⟩ := q
          simp only [Option.map_some', Option.some_bind]

/-- Witness for C6 at `docDouble` (`a.footnote-ref` node 3, matched by the
duplicated rule, so counted twice), processed at positions 0 and 1 with
indices 1 and 2. -/
theorem C6_automatic_mode_sequence_and_indices_witness :
    (footrefsAuto docDouble).count 3
      = (foot_ref_tags_selectors.filter
          (fun s => decide (3 ∈ selectDoc docDouble s))).length
    ∧ (footrefsAuto docDouble).count 3 = 2 := by
  have h := C6_automatic_mode_sequence_and_indices docDouble 3 true [] [3] 3 (by decide)
  exact ⟨h.2.1, by decide⟩

/-! ### Claim C8 -/

/-- Counterexample to claim C8: when the reference resolves to itself
(its fragment equals its own freshly assigned identifier `nootref1`),
the pair is resolved, yet the reference node's final role attribute is
`footnote`, not the claimed `noteref` — the definition-side assignments
overwrite the reference-side ones on the shared node, which is also
renamed to `aside`. -/
theorem C8_counterexample :
    (processOne false docSelfRef 1 3).map
      (fun p => (getAttrOf p.1 3 "epub:type", tagOf p.1 3, p.2))
      = some (some "footnote", some "aside", true) := by
  decide

/-- Claim C8, amended: for every resolved pair whose definition node is
distinct from the reference node, the rewriter sets the reference's
identifier to the fixed prefix `nootref` concatenated with the sequence
index (unconditionally — no check against pre-existing identifiers),
marks the reference with `epub:type="noteref"`, replaces the reference's
content with the single marker glyph, renames the definition to `aside`
whatever its original element kind, and sets the definition's
`epub:type` to `footnote`.  When the reference resolves to itself, the
definition-side writes overwrite the reference-side role. -/
theorem C8_resolved_pair_rewrites (nj : Bool) (soup : Doc) (idx ref : Nat) (d2 : Doc)
    (b : Bool) (href : String) (nt : Nat)
    (h1 : getAttrOf soup ref "href" = some href)
    (h2 : findById (soupIdAssigned soup idx ref) (noteIdOf href) = some nt)
    (h : processOne nj soup idx ref = some (d2, b))
    (hne : nt ≠ ref) :
    getAttrOf d2 ref "id" = some ("nootref" ++ natStr idx)
    ∧ getAttrOf d2 ref "epub:type" = some "noteref"
    ∧ childrenOf d2.store ref = [Child.textNode "㊟"]
    ∧ tagOf d2 nt = some "aside"
    ∧ getAttrOf d2 nt "epub:type" = some "footnote" := by
  obtain ⟨nd0, hnd0⟩ := getAttrOf_some_lookup soup ref "href" href h1
  obtain ⟨ndt, hndt⟩ := getAttrOf_some_lookup (soupIdAssigned soup idx ref) nt "id"
    (noteIdOf href) (findById_attr _ _ nt h2)
  obtain ⟨href2, heq, hcase⟩ := processOne_shape nj soup idx ref d2 b h
  rw [h1] at heq
  cases heq
  rcases hcase with ⟨hfn, _, _⟩ | ⟨nt2, hf2, hb, s5, hs5, hjump⟩
  · rw [h2] at hfn
    exact Option.noConfusion hfn
  · rw [h2] at hf2
    cases hf2
    have hbase : getAttrOf (soupIdAssigned soup idx ref) ref "id"
        = some ("nootref" ++ natStr idx) :=
      getAttrOf_setAttr_self soup ref "id" _ nd0 hnd0
    have hS5id : getAttrOf s5 ref "id" = some ("nootref" ++ natStr idx) := by
      rcases hs5 with ⟨pp, _, hs⟩ | ⟨_, hs⟩
      · rw [hs, idAttr_soupMoved, idAttr_soupMarked]; exact hbase
      · rw [hs, idAttr_soupMarked]; exact hbase
    have hS5etype : getAttrOf s5 ref "epub:type" = some "noteref" := by
      rcases hs5 with ⟨pp, _, hs⟩ | ⟨_, hs⟩
      · rw [hs, getAttrOf_soupMoved_any]
        exact markedRef_etype soup idx ref nt nd0 (fun hh => hne hh.symm) hnd0
      · rw [hs]
        exact markedRef_etype soup idx ref nt nd0 (fun hh => hne hh.symm) hnd0
    have hS5child : childrenOf s5.store ref = [Child.textNode "㊟"] := by
      rcases hs5 with ⟨pp, _, hs⟩ | ⟨_, hs⟩
      · rw [hs]
        exact childrenOf_soupMoved_textonly soup idx ref nt pp ref "㊟"
          (fun hh => hne hh.symm)
          (markedRef_children soup idx ref nt nd0 (fun hh => hne hh.symm) hnd0)
      · rw [hs]
        exact markedRef_children soup idx ref nt nd0 (fun hh => hne hh.symm) hnd0
    have hS5tag : tagOf s5 nt = some "aside" := by
      rcases hs5 with ⟨pp, _, hs⟩ | ⟨_, hs⟩
      · rw [hs, tagOf_soupMoved]
        exact markedNt_tag soup idx ref nt ndt hne hndt
      · rw [hs]
        exact markedNt_tag soup idx ref nt ndt hne hndt
    have hS5ntEtype : getAttrOf s5 nt "epub:type" = some "footnote" := by
      rcases hs5 with ⟨pp, _, hs⟩ | ⟨_, hs⟩
      · rw [hs, getAttrOf_soupMoved_any]
        exact markedNt_etype soup idx ref nt ndt hne hndt
      · rw [hs]
        exact markedNt_etype soup idx ref nt ndt hne hndt
    have hS5max : maxId s5.store = maxId soup.store := by
      rcases hs5 with ⟨pp, _, hs⟩ | ⟨_, hs⟩
      · rw [hs]; exact maxId_soupMoved soup idx ref nt pp
      · rw [hs]; exact maxId_soupMarked soup idx ref nt
    rcases hjump with ⟨_, hd⟩ | ⟨_, rid, hrid, hd⟩
    · subst hd
      exact ⟨hS5id, hS5etype, hS5child, hS5tag, hS5ntEtype⟩
    · subst hd
      have hrefle : ref ≤ maxId s5.store := by
        rw [hS5max]
        exact lookupNode_some_le_maxId soup.store ref nd0 hnd0
      have hntle : nt ≤ maxId s5.store := by
        rw [hS5max, ← maxId_soupIdAssigned soup idx ref]
        exact lookupNode_some_le_maxId _ nt ndt hndt
      refine ⟨?_, ?_, ?_, ?_, ?_⟩
      · rw [getAttrOf_soupJumped_le _ _ _ _ _ _ hrefle]; exact hS5id
      · rw [getAttrOf_soupJumped_le _ _ _ _ _ _ hrefle]; exact hS5etype
      · exact childrenOf_soupJumped_textonly s5 idx nt rid ref "㊟"
          (fun hh => hne hh.symm) hrefle hS5child
      · rw [tagOf_soupJumped_le _ _ _ _ _ hntle]; exact hS5tag
      · rw [getAttrOf_soupJumped_le _ _ _ _ _ _ hntle]; exact hS5ntEtype

/-- Witness for C8 at `docNoP` with the jump-back option on (reference 4,
definition 3 renamed from `span` to `aside`). -/
theorem C8_resolved_pair_rewrites_witness :
    getAttrOf (soupJumped (soupMarked docNoP 1 4 3) 1 3 "nootref1") 4 "id"
        = some ("nootref" ++ natStr 1)
    ∧ getAttrOf (soupJumped (soupMarked docNoP 1 4 3) 1 3 "nootref1") 4 "epub:type"
        = some "noteref"
    ∧ childrenOf (soupJumped (soupMarked docNoP 1 4 3) 1 3 "nootref1").store 4
        = [Child.textNode "㊟"]
    ∧ tagOf (soupJumped (soupMarked docNoP 1 4 3) 1 3 "nootref1") 3 = some "aside"
    ∧ getAttrOf (soupJumped (soupMarked docNoP 1 4 3) 1 3 "nootref1") 3 "epub:type"
        = some "footnote" :=
  C8_resolved_pair_rewrites true docNoP 1 4
    (soupJumped (soupMarked docNoP 1 4 3) 1 3 "nootref1") true "#Z1" 3
    (by decide) (by decide) (by decide) (by decide)

/-! ### Claim C4 -/

theorem insBeforeL_no_occ (cs : List Child) (t x : Nat) (h : Child.elemRef t ∉ cs) :
    insBeforeL cs t x = cs := by
  induction cs with
  | nil => rfl
  | cons c cs ih =>
    have hc : c ≠ Child.elemRef t := fun hh => h (hh ▸ List.mem_cons_self _ _)
    have hb : (c == Child.elemRef t) = false := beq_eq_false_iff_ne.mpr hc
    simp only [insBeforeL, hb, Bool.false_eq_true, if_false]
    rw [ih (fun hm => h (List.mem_cons_of_mem _ hm))]

theorem lookupNode_soupJumped_fresh (s5 : Doc) (idx nt : Nat) (rid : String) :
    lookupNode (soupJumped s5 idx nt rid).store (freshId s5) = some (linkTag idx rid) := by
  unfold soupJumped
  rw [lookupNode_insertBefore, lookupNode_pushNode_self, Option.map_some']
  rfl

theorem childrenOf_soupJumped_parent (s5 : Doc) (idx nt : Nat) (rid : String) (q : Nat)
    (cs1 cs2 : List Child)
    (hq : childrenOf s5.store q = cs1 ++ Child.elemRef nt :: cs2)
    (hnt1 : Child.elemRef nt ∉ cs1)
    (hfnt : nt ≠ freshId s5)
    (hf1 : Child.elemRef (freshId s5) ∉ cs1)
    (hf2 : Child.elemRef (freshId s5) ∉ cs2) :
    childrenOf (soupJumped s5 idx nt rid).store q
      = cs1 ++ Child.elemRef (freshId s5) :: Child.elemRef nt :: cs2 := by
  have hne : childrenOf s5.store q ≠ [] := by
    rw [hq]
    cases cs1 <;> simp
  obtain ⟨nd, hnd⟩ := lookup_of_childrenOf_ne_nil s5.store q hne
  have hqle : q ≤ maxId s5.store := lookupNode_some_le_maxId _ _ _ hnd
  have hqne : q ≠ freshId s5 := by unfold freshId; omega
  unfold soupJumped
  rw [childrenOf_insertBefore, childrenOf_pushNode_ne _ _ _ _ hqne, hq]
  have hnotin : Child.elemRef (freshId s5) ∉ cs1 ++ Child.elemRef nt :: cs2 := by
    intro hm
    rcases List.mem_append.mp hm with hm | hm
    · exact hf1 hm
    · rcases List.mem_cons.mp hm with hm | hm
      · exact hfnt (Child.elemRef.inj hm).symm
      · exact hf2 hm
  rw [filter_ref_eq_self _ _ hnotin]
  exact insBeforeL_insert cs1 cs2 nt (freshId s5) hnt1

theorem childrenOf_soupJumped_no_insert (s5 : Doc) (idx nt : Nat) (rid : String) (j : Nat)
    (hj : j ≠ freshId s5)
    (hnt : Child.elemRef nt ∉ childrenOf s5.store j)
    (hfr : Child.elemRef (freshId s5) ∉ childrenOf s5.store j) :
    childrenOf (soupJumped s5 idx nt rid).store j = childrenOf s5.store j := by
  unfold soupJumped
  rw [childrenOf_insertBefore, childrenOf_pushNode_ne _ _ _ _ hj,
    filter_ref_eq_self _ _ hfr]
  exact insBeforeL_no_occ _ _ _ hnt

theorem processOne_false_keys (soup : Doc) (idx ref : Nat) (d2 : Doc) (b : Bool)
    (h : processOne false soup idx ref = some (d2, b)) :
    d2.store.map (fun e => e.1) = soup.store.map (fun e => e.1) := by
  obtain ⟨href, _, hcase⟩ := processOne_shape false soup idx ref d2 b h
  rcases hcase with ⟨_, hd, _⟩ | ⟨nt, _, _, s5, hs5, hjump⟩
  · rw [hd]
    exact keys_soupIdAssigned soup idx ref
  · rcases hjump with ⟨_, hd⟩ | ⟨hft, _⟩
    · subst hd
      rcases hs5 with ⟨pp, _, hs⟩ | ⟨_, hs⟩
      · rw [hs]
        exact keys_soupMoved soup idx ref nt pp
      · rw [hs]
        exact keys_soupMarked soup idx ref nt
    · exact Bool.noConfusion hft

/-- Counterexample to claim C4: with the jump-back option enabled, on
`docNoP` (reference 4, definition 3) the new link node (identity 5,
`<a href="#nootref1">[1]</a>`) is NOT made the definition's first child —
the definition keeps its single original text child `def` — but is
instead inserted among the definition's siblings: the body's child list
becomes link, definition, reference. -/
theorem C4_counterexample :
    (processOne true docNoP 1 4).map (fun p =>
      (childrenOf p.1.store 3, childrenOf p.1.store 2, lookupNode p.1.store 5))
      = some ([Child.textNode "def"],
          [Child.elemRef 5, Child.elemRef 3, Child.elemRef 4],
          some (linkTag 1 "nootref1")) := by
  decide

/-- Claim C4, corrected: for a resolved pair, with the jump-back option
disabled the loop body creates no node at all (the store's identity list
is unchanged, so no back-link exists anywhere); with it enabled a fresh
link node `<a href="#nootref<idx>">[<idx>]</a>` is created and inserted
as the definition's immediately PRECEDING SIBLING — in any parent whose
child list holds the definition, the link lands directly before the
definition's first occurrence — while the definition's own child list is
unchanged: the link is not made the definition's first child
(`note_text.insert_before(new_tag)` at line 106 is a sibling insertion,
not a prepend into `note_text`). -/
theorem C4_jumpback_link_precedes_definition_as_sibling (soup : Doc) (idx ref : Nat)
    (href : String) (nt : Nat)
    (h1 : getAttrOf soup ref "href" = some href)
    (h2 : findById (soupIdAssigned soup idx ref) (noteIdOf href) = some nt) :
    (∀ d2 b, processOne false soup idx ref = some (d2, b) →
        d2.store.map (fun e => e.1) = soup.store.map (fun e => e.1))
    ∧ (∀ d2 b, processOne true soup idx ref = some (d2, b) →
        ∃ s5, ((∃ pp, findParentP (soupMarked soup idx ref nt) nt = some pp ∧
                  s5 = soupMoved soup idx ref nt pp) ∨
               (findParentP (soupMarked soup idx ref nt) nt = none ∧
                  s5 = soupMarked soup idx ref nt))
          ∧ d2 = soupJumped s5 idx nt ("nootref" ++ natStr idx)
          ∧ lookupNode d2.store (freshId s5) = some (linkTag idx ("nootref" ++ natStr idx))
          ∧ (∀ q cs1 cs2, childrenOf s5.store q = cs1 ++ Child.elemRef nt :: cs2 →
              Child.elemRef nt ∉ cs1 →
              Child.elemRef (freshId s5) ∉ cs1 → Child.elemRef (freshId s5) ∉ cs2 →
              childrenOf d2.store q
                = cs1 ++ Child.elemRef (freshId s5) :: Child.elemRef nt :: cs2)
          ∧ (Child.elemRef nt ∉ childrenOf s5.store nt →
              Child.elemRef (freshId s5) ∉ childrenOf s5.store nt →
              childrenOf d2.store nt = childrenOf s5.store nt)) := by
  obtain ⟨nd0, hnd0⟩ := getAttrOf_some_lookup soup ref "href" href h1
  obtain ⟨ndt, hndt⟩ := getAttrOf_some_lookup (soupIdAssigned soup idx ref) nt "id"
    (noteIdOf href) (findById_attr _ _ nt h2)
  constructor
  · intro d2 b h
    exact processOne_false_keys soup idx ref d2 b h
  · intro d2 b h
    obtain ⟨href2, heq, hcase⟩ := processOne_shape true soup idx ref d2 b h
    rw [h1] at heq
    cases heq
    rcases hcase with ⟨hfn, _, _⟩ | ⟨nt2, hf2, _, s5, hs5, hjump⟩
    · rw [h2] at hfn
      exact Option.noConfusion hfn
    · rw [h2] at hf2
      cases hf2
      rcases hjump with ⟨hft, _⟩ | ⟨_, rid, hrid, hd⟩
      · exact Bool.noConfusion hft
      · have hbase : getAttrOf (soupIdAssigned soup idx ref) ref "id"
            = some ("nootref" ++ natStr idx) :=
          getAttrOf_setAttr_self soup ref "id" _ nd0 hnd0
        have hS5id : getAttrOf s5 ref "id" = some ("nootref" ++ natStr idx) := by
          rcases hs5 with ⟨pp, _, hs⟩ | ⟨_, hs⟩
          · rw [hs, idAttr_soupMoved, idAttr_soupMarked]
            exact hbase
          · rw [hs, idAttr_soupMarked]
            exact hbase
        rw [hS5id] at hrid
        injection hrid with hr
        subst hr
        have hS5max : maxId s5.store = maxId soup.store := by
          rcases hs5 with ⟨pp, _, hs⟩ | ⟨_, hs⟩
          · rw [hs]
            exact maxId_soupMoved soup idx ref nt pp
          · rw [hs]
            exact maxId_soupMarked soup idx ref nt
        have hntle : nt ≤ maxId s5.store := by
          rw [hS5max, ← maxId_soupIdAssigned soup idx ref]
          exact lookupNode_some_le_maxId _ nt ndt hndt
        have hfnt : nt ≠ freshId s5 := by unfold freshId; omega
        subst hd
        refine ⟨s5, hs5, rfl, lookupNode_soupJumped_fresh s5 idx nt _, ?_, ?_⟩
        · intro q cs1 cs2 hq hnt1 hfq1 hfq2
          exact childrenOf_soupJumped_parent s5 idx nt _ q cs1 cs2 hq hnt1 hfnt hfq1 hfq2
        · intro hnn hfn2
          exact childrenOf_soupJumped_no_insert s5 idx nt _ nt hfnt hnn hfn2

/-- Witness for the corrected C4 at `docNoP`: the disabled run creates no
node (identity lists agree), and the enabled run registers link node 5
with the generated-identifier target, places it between the body's start
and the definition (body children: link 5, definition 3, reference 4),
and leaves the definition's child list at its single text child. -/
theorem C4_jumpback_link_precedes_definition_as_sibling_witness :
    (soupMarked docNoP 1 4 3).store.map (fun e => e.1) = docNoP.store.map (fun e => e.1)
    ∧ lookupNode (soupJumped (soupMarked docNoP 1 4 3) 1 3 ("nootref" ++ natStr 1)).store 5
        = some (linkTag 1 ("nootref" ++ natStr 1))
    ∧ childrenOf (soupJumped (soupMarked docNoP 1 4 3) 1 3 ("nootref" ++ natStr 1)).store 2
        = [Child.elemRef 5, Child.elemRef 3, Child.elemRef 4]
    ∧ childrenOf (soupJumped (soupMarked docNoP 1 4 3) 1 3 ("nootref" ++ natStr 1)).store 3
        = [Child.textNode "def"] := by
  have W := C4_jumpback_link_precedes_definition_as_sibling docNoP 1 4 "#Z1" 3
    (by decide) (by decide)
  have hfalse : processOne false docNoP 1 4 = some (soupMarked docNoP 1 4 3, true) := by decide
  have htrue : processOne true docNoP 1 4
      = some (soupJumped (soupMarked docNoP 1 4 3) 1 3 ("nootref" ++ natStr 1), true) := by
    decide
  obtain ⟨s5, hs5, hd, hlink, hpar, hself⟩ := W.2 _ _ htrue
  have hs5eq : s5 = soupMarked docNoP 1 4 3 := by
    rcases hs5 with ⟨pp, hpp, _⟩ | ⟨_, hs⟩
    · rw [show findParentP (soupMarked docNoP 1 4 3) 3 = none from by decide] at hpp
      exact Option.noConfusion hpp
    · exact hs
  subst hs5eq
  have h5 : freshId (soupMarked docNoP 1 4 3) = 5 := by decide
  rw [h5] at hlink
  refine ⟨W.1 _ _ hfalse, hlink, ?_, ?_⟩
  · have h3 := hpar 2 [] [Child.elemRef 4] (by decide) (by decide) (by decide) (by decide)
    rw [h5] at h3
    simpa using h3
  · have h4 := hself (by decide) (by decide)
    rw [h4]
    decide

/-! ### Claim C1 -/

theorem childrenOf_soupMarked_other (soup : Doc) (idx ref nt : Nat) (j : Nat) (hj : j ≠ ref) :
    childrenOf (soupMarked soup idx ref nt).store j = childrenOf soup.store j := by
  unfold soupMarked
  rw [childrenOf_setAttr, childrenOf_setName, childrenOf_setString_other _ _ _ _ hj,
    childrenOf_setAttr, childrenOf_soupIdAssigned]

theorem childrenOf_soupMoved_nt (soup : Doc) (idx ref nt pp : Nat) (nd : ElemData)
    (hnd : lookupNode (soupMarked soup idx ref nt).store nt = some nd) :
    childrenOf (soupMoved soup idx ref nt pp).store nt
      = [Child.textNode (pyStrip (directTextOf (soupMarked soup idx ref nt) pp))] := by
  unfold soupMoved
  rw [childrenOf_extractNode, childrenOf_insertAfter,
    childrenOf_setString_self _ _ _ nd hnd, filter_textNode_singleton,
    insAfterL_textNode_singleton, filter_textNode_singleton]

theorem childrenOf_soupMoved_parent (soup : Doc) (idx ref nt pp q : Nat)
    (cs1 cs2 : List Child)
    (hq : childrenOf (soupMarked soup idx ref nt).store q = cs1 ++ Child.elemRef pp :: cs2)
    (hqnt : q ≠ nt)
    (hppnt : pp ≠ nt)
    (hpp1 : Child.elemRef pp ∉ cs1) (hpp2 : Child.elemRef pp ∉ cs2)
    (hnt1 : Child.elemRef nt ∉ cs1) (hnt2 : Child.elemRef nt ∉ cs2) :
    childrenOf (soupMoved soup idx ref nt pp).store q = cs1 ++ Child.elemRef nt :: cs2 := by
  unfold soupMoved
  rw [childrenOf_extractNode, childrenOf_insertAfter,
    childrenOf_setString_other _ _ _ _ hqnt, hq]
  have hntin : Child.elemRef nt ∉ cs1 ++ Child.elemRef pp :: cs2 := by
    intro hm
    rcases List.mem_append.mp hm with hm | hm
    · exact hnt1 hm
    · rcases List.mem_cons.mp hm with hm | hm
      · exact hppnt (Child.elemRef.inj hm).symm
      · exact hnt2 hm
  rw [filter_ref_eq_self _ _ hntin, insAfterL_insert cs1 cs2 pp nt hpp1,
    List.filter_append, filter_ref_eq_self cs1 pp hpp1]
  have h2 : (Child.elemRef nt != Child.elemRef pp) = true :=
    elemRef_bne_of_ne nt pp (fun hh => hppnt hh.symm)
  simp [List.filter_cons, h2, filter_ref_eq_self cs2 pp hpp2]

/-- Claim C1: for a resolved pair processed with the jump-back option off,
when the definition has a nearest `p` ancestor the loop body yields
exactly the moved state: the definition's content becomes the single text
node holding the ancestor's stripped direct text (text inside the
ancestor's child elements excluded — `directTextOf` collects only
immediate text children, and it reads the ancestor's original child list
whenever the ancestor is not the reference node), the ancestor is removed
from every child list in the tree, and the definition takes the
ancestor's exact former position in its parent.  When no `p` ancestor
exists, the loop body yields the marked state, in which no node except
the reference has its child list changed — the definition is neither
rewritten in content nor moved. -/
theorem C1_paragraph_extraction_and_move (soup : Doc) (idx ref : Nat) (href : String) (nt : Nat)
    (h1 : getAttrOf soup ref "href" = some href)
    (h2 : findById (soupIdAssigned soup idx ref) (noteIdOf href) = some nt) :
    (∀ pp, findParentP (soupMarked soup idx ref nt) nt = some pp →
        processOne false soup idx ref = some (soupMoved soup idx ref nt pp, true)
        ∧ tagOf (soupMarked soup idx ref nt) pp = some "p"
        ∧ childrenOf (soupMoved soup idx ref nt pp).store nt
            = [Child.textNode (pyStrip (directTextOf (soupMarked soup idx ref nt) pp))]
        ∧ (pp ≠ ref → directTextOf (soupMarked soup idx ref nt) pp = directTextOf soup pp)
        ∧ (∀ j, Child.elemRef pp ∉ childrenOf (soupMoved soup idx ref nt pp).store j)
        ∧ (∀ q cs1 cs2, q ≠ nt → pp ≠ nt →
            childrenOf (soupMarked soup idx ref nt).store q = cs1 ++ Child.elemRef pp :: cs2 →
            Child.elemRef pp ∉ cs1 → Child.elemRef pp ∉ cs2 →
            Child.elemRef nt ∉ cs1 → Child.elemRef nt ∉ cs2 →
            childrenOf (soupMoved soup idx ref nt pp).store q = cs1 ++ Child.elemRef nt :: cs2))
    ∧ (findParentP (soupMarked soup idx ref nt) nt = none →
        processOne false soup idx ref = some (soupMarked soup idx ref nt, true)
        ∧ (∀ j, j ≠ ref →
            childrenOf (soupMarked soup idx ref nt).store j = childrenOf soup.store j)) := by
  obtain ⟨ndt, hndt⟩ := getAttrOf_some_lookup (soupIdAssigned soup idx ref) nt "id"
    (noteIdOf href) (findById_attr _ _ nt h2)
  obtain ⟨ndm, hndm⟩ := lookupNode_soupMarked_exists soup idx ref nt ndt hndt
  constructor
  · intro pp hpp
    refine ⟨?_, findParentP_tag _ nt pp hpp, childrenOf_soupMoved_nt soup idx ref nt pp ndm hndm,
      ?_, ?_, ?_⟩
    · simp only [processOne, h1, h2, hpp]
      rw [if_neg Bool.false_ne_true]
      rfl
    · intro hppref
      unfold directTextOf
      rw [childrenOf_soupMarked_other soup idx ref nt pp hppref]
    · intro j
      unfold soupMoved
      rw [childrenOf_extractNode]
      exact not_mem_filter_self_ref _ _
    · intro q cs1 cs2 hqnt hppnt hq hpp1 hpp2 hnt1 hnt2
      exact childrenOf_soupMoved_parent soup idx ref nt pp q cs1 cs2 hq hqnt hppnt
        hpp1 hpp2 hnt1 hnt2
  · intro hnone
    refine ⟨?_, fun j hj => childrenOf_soupMarked_other soup idx ref nt j hj⟩
    simp only [processOne, h1, h2, hnone]
    rw [if_neg Bool.false_ne_true]

/-- Witness for C1: on `docP4` (reference 6, definition 5, ancestor
paragraph 3) the definition's content becomes `Some  remark` — the
concatenation of the paragraph's two direct text nodes, excluding the
text of the nested `<i>` — the paragraph disappears from the body, and
the definition takes its place before the reference; on `docNoP`
(definition 3, no `p` ancestor) the definition's child list is
untouched. -/
theorem C1_paragraph_extraction_and_move_witness :
    (processOne false docP4 1 6 = some (soupMoved docP4 1 6 5 3, true)
      ∧ tagOf (soupMarked docP4 1 6 5) 3 = some "p"
      ∧ childrenOf (soupMoved docP4 1 6 5 3).store 5 = [Child.textNode "Some  remark"]
      ∧ directTextOf (soupMarked docP4 1 6 5) 3 = directTextOf docP4 3
      ∧ Child.elemRef 3 ∉ childrenOf (soupMoved docP4 1 6 5 3).store 2
      ∧ childrenOf (soupMoved docP4 1 6 5 3).store 2 = [Child.elemRef 5, Child.elemRef 6])
    ∧ (processOne false docNoP 1 4 = some (soupMarked docNoP 1 4 3, true)
      ∧ childrenOf (soupMarked docNoP 1 4 3).store 3 = childrenOf docNoP.store 3) := by
  have WA := C1_paragraph_extraction_and_move docP4 1 6 "#Z1" 5 (by decide) (by decide)
  have WB := C1_paragraph_extraction_and_move docNoP 1 4 "#Z1" 3 (by decide) (by decide)
  obtain ⟨hrunA, htagA, hcontA, hdirA, hgoneA, hposA⟩ := WA.1 3 (by decide)
  have hpos2 := hposA 2 [] [Child.elemRef 6] (by decide) (by decide) (by decide)
    (by decide) (by decide) (by decide) (by decide)
  obtain ⟨hrunB, hframeB⟩ := WB.2 (by decide)
  refine ⟨⟨hrunA, htagA, hcontA.trans (by decide), hdirA (by decide), hgoneA 2, ?_⟩,
    hrunB, hframeB 3 (by decide)⟩
  simpa using hpos2

/-! ### Claim C9 -/

theorem mem_walkChildren_of_child (st : Store) (fuel par j : Nat) (cs : List Child)
    (hj : Child.elemRef j ∈ cs) :
    (j, par) ∈ walkChildren st fuel par cs
    ∧ ∀ q ∈ walkNode st fuel j, q ∈ walkChildren st fuel par cs := by
  induction cs with
  | nil => cases hj
  | cons c cs ih =>
    rcases List.mem_cons.mp hj with h | h
    · subst h
      rw [walkChildren_cons_elem]
      constructor
      · exact List.mem_append_left _ (List.mem_cons_self _ _)
      · intro q hq
        exact List.mem_append_left _ (List.mem_cons_of_mem _ hq)
    · cases c with
      | textNode s =>
        rw [walkChildren_cons_text]
        exact ih h
      | elemRef j2 =>
        rw [walkChildren_cons_elem]
        exact ⟨List.mem_append_right _ (ih h).1,
          fun q hq => List.mem_append_right _ ((ih h).2 q hq)⟩

theorem walk_mono (st1 st2 : Store)
    (hsub : ∀ p c, c ∈ childrenOf st2 p → c ∈ childrenOf st1 p) :
    ∀ fuel i m p, (m, p) ∈ walkNode st2 fuel i → (m, p) ∈ walkNode st1 fuel i := by
  intro fuel
  induction fuel with
  | zero => intro i m p h; cases h
  | succ fuel ih =>
    intro i m p h
    rw [walkNode_succ] at h ⊢
    rcases mem_walkChildren st2 fuel i _ m p h with ⟨hp, hm⟩ | ⟨j, hj, hm⟩
    · subst hp
      exact (mem_walkChildren_of_child st1 fuel p m _ (hsub p _ hm)).1
    · exact (mem_walkChildren_of_child st1 fuel i j _ (hsub i _ hj)).2 _ (ih j m p hm)

theorem tagOf_foldl_extract (ms : List Nat) : ∀ (d : Doc) (j : Nat),
    tagOf (ms.foldl (fun acc n => extractNode acc n) d) j = tagOf d j := by
  induction ms with
  | nil => intro d j; rfl
  | cons m ms ih =>
    intro d j
    rw [List.foldl_cons, ih, tagOf_extractNode]

theorem getAttrOf_foldl_extract (ms : List Nat) : ∀ (d : Doc) (j : Nat) (k : String),
    getAttrOf (ms.foldl (fun acc n => extractNode acc n) d) j k = getAttrOf d j k := by
  induction ms with
  | nil => intro d j k; rfl
  | cons m ms ih =>
    intro d j k
    rw [List.foldl_cons, ih, getAttrOf_extractNode]

theorem root_foldl_extract (ms : List Nat) : ∀ (d : Doc),
    (ms.foldl (fun acc n => extractNode acc n) d).root = d.root := by
  induction ms with
  | nil => intro d; rfl
  | cons m ms ih =>
    intro d
    rw [List.foldl_cons, ih]
    rfl

theorem length_foldl_extract (ms : List Nat) : ∀ (d : Doc),
    (ms.foldl (fun acc n => extractNode acc n) d).store.length = d.store.length := by
  induction ms with
  | nil => intro d; rfl
  | cons m ms ih =>
    intro d
    rw [List.foldl_cons, ih]
    exact List.length_map _ _

theorem childrenOf_foldl_extract_sub (ms : List Nat) : ∀ (d : Doc) (p : Nat) (c : Child),
    c ∈ childrenOf (ms.foldl (fun acc n => extractNode acc n) d).store p →
    c ∈ childrenOf d.store p := by
  induction ms with
  | nil => intro d p c h; exact h
  | cons m ms ih =>
    intro d p c h
    have := ih (extractNode d m) p c h
    rw [childrenOf_extractNode] at this
    exact List.mem_of_mem_filter this

theorem foldl_extract_removes (ms : List Nat) : ∀ (d : Doc) (m : Nat), m ∈ ms →
    ∀ p, Child.elemRef m ∉ childrenOf (ms.foldl (fun acc n => extractNode acc n) d).store p := by
  induction ms with
  | nil => intro d m h; cases h
  | cons m0 ms ih =>
    intro d m h p
    rcases List.mem_cons.mp h with h1 | h1
    · subst h1
      intro hmem
      have := childrenOf_foldl_extract_sub ms (extractNode d m) p _ hmem
      rw [childrenOf_extractNode] at this
      exact not_mem_filter_self_ref _ _ this
    · exact ih (extractNode d m0) m h1 p

theorem tagOf_removeNotePs (d : Doc) (j : Nat) : tagOf (removeNotePs d) j = tagOf d j :=
  tagOf_foldl_extract (findAllPNote d) d j

theorem getAttrOf_removeNotePs (d : Doc) (j : Nat) (k : String) :
    getAttrOf (removeNotePs d) j k = getAttrOf d j k :=
  getAttrOf_foldl_extract (findAllPNote d) d j k

theorem hasClassOf_removeNotePs (d : Doc) (j : Nat) (c : String) :
    hasClassOf (removeNotePs d) j c = hasClassOf d j c := by
  unfold hasClassOf
  rw [getAttrOf_removeNotePs]

theorem removeNotePs_not_child (d : Doc) (m : Nat) (hms : m ∈ findAllPNote d) (p : Nat) :
    Child.elemRef m ∉ childrenOf (removeNotePs d).store p :=
  foldl_extract_removes (findAllPNote d) d m hms p

theorem descendants_removeNotePs_sub (d : Doc) (m : Nat)
    (h : m ∈ Doc.descendants (removeNotePs d)) : m ∈ Doc.descendants d := by
  unfold Doc.descendants Doc.walk at h ⊢
  rw [List.mem_map] at h ⊢
  obtain ⟨pr, hpr, hm⟩ := h
  refine ⟨pr, ?_, hm⟩
  obtain ⟨m1, p1⟩ := pr
  have hroot : (removeNotePs d).root = d.root := root_foldl_extract _ d
  have hlen : (removeNotePs d).store.length = d.store.length := length_foldl_extract _ d
  rw [hroot, hlen] at hpr
  exact walk_mono d.store (removeNotePs d).store
    (fun p c hc => childrenOf_foldl_extract_sub _ d p c hc) _ _ _ _ hpr

theorem removeNotePs_complete (d : Doc) (m : Nat)
    (hm : m ∈ Doc.descendants (removeNotePs d)) :
    ¬(tagOf (removeNotePs d) m = some "p"
      ∧ hasClassOf (removeNotePs d) m "note" = true) := by
  rintro ⟨htag, hcls⟩
  rw [tagOf_removeNotePs] at htag
  rw [hasClassOf_removeNotePs] at hcls
  have hd : m ∈ Doc.descendants d := descendants_removeNotePs_sub d m hm
  have hms : m ∈ findAllPNote d := by
    unfold findAllPNote
    rw [List.mem_filter]
    exact ⟨hd, by simp [htag, hcls]⟩
  unfold Doc.descendants Doc.walk at hm
  obtain ⟨⟨m1, p1⟩, hpr, hfst⟩ := List.mem_map.mp hm
  cases hfst
  have hchild := walk_sound (removeNotePs d).store _ _ _ _ hpr
  exact removeNotePs_not_child d m1 hms p1 hchild

/-- Claim C9: on the non-empty-candidate path the engine's output is the
serialization of exactly one note-list cleanup applied to the fully
processed document: every paragraph-type node carrying class `note` that
is still attached after all pairs were processed is detached from every
child list in the tree — whether or not it took part in a resolved pair —
and consequently no `p.note` node remains among the descendants of the
serialized tree. -/
theorem C9_note_list_cleanup_after_processing (nj auto : Bool) (sel : Selector)
    (parse : String → Doc) (html_content : String) (hnode : Nat) (soupNs : Doc)
    (refs : List Nat) (dfin : Doc) (cnt : Nat)
    (hhtml : findHtml (parse html_content) = some hnode)
    (hsoup : soupNs = (if hasAttr (parse html_content) hnode "xmlns:epub"
      then parse html_content
      else setAttr (parse html_content) hnode "xmlns:epub" "http://www.idpf.org/2007/ops"))
    (hrefs : findFootrefs auto sel soupNs = refs)
    (hne : refs ≠ [])
    (hproc : processAll nj soupNs refs = some (dfin, cnt)) :
    create_popup_footnotes nj auto sel parse html_content
      = some (Doc.toStr (removeNotePs dfin))
    ∧ (∀ m ∈ findAllPNote dfin, ∀ p, Child.elemRef m ∉ childrenOf (removeNotePs dfin).store p)
    ∧ (∀ m ∈ Doc.descendants (removeNotePs dfin),
        ¬(tagOf (removeNotePs dfin) m = some "p"
          ∧ hasClassOf (removeNotePs dfin) m "note" = true)) := by
  refine ⟨?_, fun m hm p => removeNotePs_not_child dfin m hm p,
    fun m hm => removeNotePs_complete dfin m hm⟩
  simp only [create_popup_footnotes, hhtml]
  rw [← hsoup, hrefs]
  have hemp : refs.isEmpty = false := by
    cases refs with
    | nil => exact absurd rfl hne
    | cons r rest => rfl
  rw [hemp, if_neg Bool.false_ne_true]
  simp only [processAll] at hproc
  simp only [processAll, hproc]

/-- Witness for C9 at `docPipe` (one pair inside a note paragraph, one
leftover note paragraph 5): the pipeline output serializes the cleaned
final document, the leftover note paragraph 5 is detached from the body,
and the reference node 4 survives as a non-`p.note` descendant. -/
theorem C9_note_list_cleanup_after_processing_witness :
    create_popup_footnotes false true defaultSelector parsePipe "x"
      = some (Doc.toStr (removeNotePs
          (soupMarked (soupMoved (setAttr docPipe 1 "xmlns:epub"
            "http://www.idpf.org/2007/ops") 1 4 6 3) 2 4 6)))
    ∧ Child.elemRef 5 ∉ childrenOf (removeNotePs
        (soupMarked (soupMoved (setAttr docPipe 1 "xmlns:epub"
          "http://www.idpf.org/2007/ops") 1 4 6 3) 2 4 6)).store 2
    ∧ ¬(tagOf (removeNotePs
          (soupMarked (soupMoved (setAttr docPipe 1 "xmlns:epub"
            "http://www.idpf.org/2007/ops") 1 4 6 3) 2 4 6)) 4 = some "p"
        ∧ hasClassOf (removeNotePs
            (soupMarked (soupMoved (setAttr docPipe 1 "xmlns:epub"
              "http://www.idpf.org/2007/ops") 1 4 6 3) 2 4 6)) 4 "note" = true) := by
  have W := C9_note_list_cleanup_after_processing false true defaultSelector parsePipe "x"
    1 (setAttr docPipe 1 "xmlns:epub" "http://www.idpf.org/2007/ops") [4, 4]
    (soupMarked (soupMoved (setAttr docPipe 1 "xmlns:epub"
      "http://www.idpf.org/2007/ops") 1 4 6 3) 2 4 6) 2
    (by decide) (by decide) (by decide) (by decide) (by decide)
  exact ⟨W.1, W.2.1 5 (by decide) 2, W.2.2 4 (by decide)⟩

/-! ### Claim C10 -/

theorem count_footrefsAuto_ge_two (d : Doc) (n : Nat)
    (h : n ∈ selectDoc d defaultSelector) :
    2 ≤ (footrefsAuto d).count n := by
  have hpos : 0 < (selectDoc d (Selector.tagCls "a" "footnote-ref")).count n :=
    List.count_pos_iff.mpr h
  have hflat : footrefsAuto d = (foot_ref_tags_selectors.map (selectDoc d)).flatten := by
    unfold footrefsAuto
    rw [foldl_append_flatten (selectDoc d) foot_ref_tags_selectors []]
    rfl
  rw [hflat]
  rw [show foot_ref_tags_selectors.map (selectDoc d)
      = [selectDoc d (Selector.tagCls "a" "footnote-ref"),
         selectDoc d (Selector.tagCls "a" "footnote"),
         selectDoc d (Selector.tagCls "a" "footnote-backref"),
         selectDoc d (Selector.tagCls "a" "footnote-ref"),
         selectDoc d (Selector.childTag "span" "math-super" "a"),
         selectDoc d (Selector.tagCls "a" "footnote-link"),
         selectDoc d (Selector.childTag "sup" "suptext" "a")] from rfl]
  simp only [List.flatten_cons, List.flatten_nil, List.count_append, List.count_nil]
  omega

theorem lastIdxFrom_not_mem_none : ∀ (l : List Nat) (i0 m : Nat), m ∉ l →
    lastIdxFrom i0 l m = none := by
  intro l
  induction l with
  | nil => intro i0 m _; rfl
  | cons r rest ih =>
    intro i0 m h
    unfold lastIdxFrom
    rw [ih (i0 + 1) m (fun hh => h (List.mem_cons_of_mem _ hh))]
    rw [if_neg (fun hh : r = m => h (hh ▸ List.mem_cons_self r rest))]

theorem lastIdxFrom_last_here (i0 n : Nat) (l3 : List Nat) (h : n ∉ l3) :
    lastIdxFrom i0 (n :: l3) n = some i0 := by
  unfold lastIdxFrom
  rw [lastIdxFrom_not_mem_none l3 (i0 + 1) n h, if_pos rfl]

theorem lastIdxFrom_append_right : ∀ (l : List Nat) (i0 : Nat) (t : List Nat) (m k : Nat),
    lastIdxFrom (i0 + l.length) t m = some k →
    lastIdxFrom i0 (l ++ t) m = some k := by
  intro l
  induction l with
  | nil => intro i0 t m k h; exact h
  | cons r l ih =>
    intro i0 t m k h
    have h2 : lastIdxFrom (i0 + 1 + l.length) t m = some k := by
      rw [show i0 + 1 + l.length = i0 + (r :: l).length from by
        simp [List.length_cons]
        omega]
      exact h
    have hstep : lastIdxFrom i0 ((r :: l) ++ t) m
        = match lastIdxFrom (i0 + 1) (l ++ t) m with
          | some k2 => some k2
          | none => if r = m then some i0 else none := rfl
    rw [hstep, ih (i0 + 1) t m k h2]

theorem maxId_append_single (st : Store) (e : Nat × ElemData) :
    maxId (st ++ [e]) = max (maxId st) e.1 := by
  induction st with
  | nil =>
    show max e.1 0 = max 0 e.1
    omega
  | cons q st ih =>
    show max q.1 (maxId (st ++ [e])) = max (max q.1 (maxId st)) e.1
    rw [ih]
    omega

theorem maxId_pushNode (d : Doc) (i : Nat) (nd : ElemData) :
    maxId (pushNode d i nd).store = max (maxId d.store) i :=
  maxId_append_single d.store (i, nd)

theorem maxId_soupJumped (s5 : Doc) (idx nt : Nat) (rid : String) :
    maxId (soupJumped s5 idx nt rid).store = maxId s5.store + 1 := by
  unfold soupJumped
  rw [maxId_insertBefore, maxId_pushNode]
  show max (maxId s5.store) (freshId s5) = maxId s5.store + 1
  unfold freshId
  omega

theorem processOne_maxId_mono (nj : Bool) (da : Doc) (idx ref : Nat) (db : Doc) (b : Bool)
    (h : processOne nj da idx ref = some (db, b)) :
    maxId da.store ≤ maxId db.store := by
  obtain ⟨href, _, hcase⟩ := processOne_shape nj da idx ref db b h
  rcases hcase with ⟨_, hd, _⟩ | ⟨nt, _, _, s5, hs5, hjump⟩
  · rw [hd, maxId_soupIdAssigned]
  · have h5 : maxId s5.store = maxId da.store := by
      rcases hs5 with ⟨pp, _, hs⟩ | ⟨_, hs⟩
      · rw [hs]
        exact maxId_soupMoved da idx ref nt pp
      · rw [hs]
        exact maxId_soupMarked da idx ref nt
    rcases hjump with ⟨_, hd⟩ | ⟨_, rid, _, hd⟩
    · rw [hd, h5]
    · rw [hd, maxId_soupJumped, h5]
      omega

theorem processAllAux_maxId_mono (nj : Bool) : ∀ (refs : List Nat) (da : Doc) (i0 : Nat)
    (db : Doc) (c : Nat), processAllAux nj da i0 refs = some (db, c) →
    maxId da.store ≤ maxId db.store := by
  intro refs
  induction refs with
  | nil =>
    intro da i0 db c h
    have h1 : some (da, 0) = some (db, c) := h
    cases h1
    exact le_refl _
  | cons r rest ih =>
    intro da i0 db c h
    rw [processAllAux_cons] at h
    cases hp : processOne nj da i0 r with
    | none =>
      rw [hp] at h
      exact Option.noConfusion h
    | some p =>
      obtain ⟨d1, b⟩ := p
      rw [hp] at h
      simp only [Option.some_bind] at h
      cases haux : processAllAux nj d1 (i0 + 1) rest with
      | none =>
        rw [haux] at h
        exact Option.noConfusion h
      | some q =>
        obtain ⟨dq, cq⟩ := q
        rw [haux] at h
        simp only [Option.map_some', Option.some.injEq, Prod.mk.injEq] at h
        have hdq : dq = db := h.1
        subst hdq
        exact le_trans (processOne_maxId_mono nj da i0 r d1 b hp) (ih d1 (i0 + 1) dq cq haux)

theorem lookupNode_insertAfter_link (d : Doc) (t x a i : Nat) (r : String)
    (ha : lookupNode d.store a = some (linkTag i r)) :
    lookupNode (insertAfter d t x).store a = some (linkTag i r) := by
  rw [lookupNode_insertAfter, ha, Option.map_some']
  rfl

theorem lookupNode_insertBefore_link (d : Doc) (t x a i : Nat) (r : String)
    (ha : lookupNode d.store a = some (linkTag i r)) :
    lookupNode (insertBefore d t x).store a = some (linkTag i r) := by
  rw [lookupNode_insertBefore, ha, Option.map_some']
  rfl

theorem lookupNode_extractNode_link (d : Doc) (x a i : Nat) (r : String)
    (ha : lookupNode d.store a = some (linkTag i r)) :
    lookupNode (extractNode d x).store a = some (linkTag i r) := by
  show lookupNode (eraseRef d.store x) a = some (linkTag i r)
  rw [lookupNode_eraseRef, ha, Option.map_some']
  rfl

theorem lookupNode_soupMarked_link (soup : Doc) (idx ref nt a i : Nat) (r : String)
    (ha : lookupNode soup.store a = some (linkTag i r))
    (haref : a ≠ ref) (hant : a ≠ nt) :
    lookupNode (soupMarked soup idx ref nt).store a = some (linkTag i r) := by
  unfold soupMarked soupIdAssigned
  rw [lookupNode_setAttr_other _ _ _ _ _ hant, lookupNode_setName_other _ _ _ _ hant,
    lookupNode_setString_other _ _ _ _ haref, lookupNode_setAttr_other _ _ _ _ _ haref,
    lookupNode_setAttr_other _ _ _ _ _ haref]
  exact ha

theorem processOne_persists (nj : Bool) (da : Doc) (idx ref : Nat) (db : Doc) (b : Bool)
    (h : processOne nj da idx ref = some (db, b)) (a i : Nat) (r : String)
    (ha : lookupNode da.store a = some (linkTag i r))
    (haref : a ≠ ref) :
    lookupNode db.store a = some (linkTag i r) := by
  obtain ⟨href, hhref, hcase⟩ := processOne_shape nj da idx ref db b h
  have ha1 : lookupNode (soupIdAssigned da idx ref).store a = some (linkTag i r) := by
    unfold soupIdAssigned
    rw [lookupNode_setAttr_other _ _ _ _ _ haref]
    exact ha
  rcases hcase with ⟨_, hd, _⟩ | ⟨nt, hfind, _, s5, hs5, hjump⟩
  · rw [hd]
    exact ha1
  · have hant : a ≠ nt := by
      intro hh
      have hid := findById_attr _ _ _ hfind
      rw [← hh] at hid
      unfold getAttrOf at hid
      rw [ha1] at hid
      simp only [Option.some_bind] at hid
      rw [getAttrE_linkTag_id] at hid
      exact Option.noConfusion hid
    have hmk : lookupNode (soupMarked da idx ref nt).store a = some (linkTag i r) :=
      lookupNode_soupMarked_link da idx ref nt a i r ha haref hant
    have h5 : lookupNode s5.store a = some (linkTag i r) := by
      rcases hs5 with ⟨pp, _, hs⟩ | ⟨_, hs⟩
      · rw [hs]
        unfold soupMoved
        exact lookupNode_extractNode_link _ _ _ _ _
          (lookupNode_insertAfter_link _ _ _ _ _ _
            (by rw [lookupNode_setString_other _ _ _ _ hant]; exact hmk))
      · rw [hs]
        exact hmk
    rcases hjump with ⟨_, hd⟩ | ⟨_, rid, _, hd⟩
    · rw [hd]
      exact h5
    · rw [hd]
      unfold soupJumped
      exact lookupNode_insertBefore_link _ _ _ _ _ _
        (lookupNode_pushNode_other _ _ _ _ _ h5)

theorem processAllAux_persists (nj : Bool) : ∀ (refs : List Nat) (da : Doc) (i0 : Nat)
    (db : Doc) (c : Nat), processAllAux nj da i0 refs = some (db, c) →
    ∀ (a i : Nat) (r : String), lookupNode da.store a = some (linkTag i r) →
    (∀ x ∈ refs, x ≠ a) →
    lookupNode db.store a = some (linkTag i r) := by
  intro refs
  induction refs with
  | nil =>
    intro da i0 db c h a i r ha _
    have h1 : some (da, 0) = some (db, c) := h
    cases h1
    exact ha
  | cons x rest ih =>
    intro da i0 db c h a i r ha hx
    rw [processAllAux_cons] at h
    cases hp : processOne nj da i0 x with
    | none =>
      rw [hp] at h
      exact Option.noConfusion h
    | some p =>
      obtain ⟨d1, b⟩ := p
      rw [hp] at h
      simp only [Option.some_bind] at h
      cases haux : processAllAux nj d1 (i0 + 1) rest with
      | none =>
        rw [haux] at h
        exact Option.noConfusion h
      | some q =>
        obtain ⟨dq, cq⟩ := q
        rw [haux] at h
        simp only [Option.map_some', Option.some.injEq, Prod.mk.injEq] at h
        have hdq : dq = db := h.1
        subst hdq
        exact ih d1 (i0 + 1) dq cq haux a i r
          (processOne_persists nj da i0 x d1 b hp a i r ha
            (fun hh => hx x (List.mem_cons_self _ _) hh.symm))
          (fun y hy => hx y (List.mem_cons_of_mem _ hy))

theorem processOne_creates_link (da : Doc) (idx ref : Nat) (db : Doc) (b : Bool)
    (href : String) (nt : Nat)
    (h1 : getAttrOf da ref "href" = some href)
    (h2 : findById (soupIdAssigned da idx ref) (noteIdOf href) = some nt)
    (h : processOne true da idx ref = some (db, b)) :
    b = true ∧ lookupNode db.store (maxId da.store + 1)
      = some (linkTag idx ("nootref" ++ natStr idx)) := by
  obtain ⟨nd0, hnd0⟩ := getAttrOf_some_lookup da ref "href" href h1
  obtain ⟨href2, heq, hcase⟩ := processOne_shape true da idx ref db b h
  rw [h1] at heq
  cases heq
  rcases hcase with ⟨hfn, _, _⟩ | ⟨nt2, hf2, hb, s5, hs5, hjump⟩
  · rw [h2] at hfn
    exact Option.noConfusion hfn
  · rw [h2] at hf2
    cases hf2
    rcases hjump with ⟨hft, _⟩ | ⟨_, rid, hrid, hd⟩
    · exact Bool.noConfusion hft
    · have hbase : getAttrOf (soupIdAssigned da idx ref) ref "id"
          = some ("nootref" ++ natStr idx) :=
        getAttrOf_setAttr_self da ref "id" _ nd0 hnd0
      have hS5id : getAttrOf s5 ref "id" = some ("nootref" ++ natStr idx) := by
        rcases hs5 with ⟨pp, _, hs⟩ | ⟨_, hs⟩
        · rw [hs, idAttr_soupMoved, idAttr_soupMarked]
          exact hbase
        · rw [hs, idAttr_soupMarked]
          exact hbase
      rw [hS5id] at hrid
      injection hrid with hr
      subst hr
      have hS5max : maxId s5.store = maxId da.store := by
        rcases hs5 with ⟨pp, _, hs⟩ | ⟨_, hs⟩
        · rw [hs]
          exact maxId_soupMoved da idx ref nt pp
        · rw [hs]
          exact maxId_soupMarked da idx ref nt
      subst hd
      refine ⟨hb, ?_⟩
      have hres := lookupNode_soupJumped_fresh s5 idx nt ("nootref" ++ natStr idx)
      rw [show freshId s5 = maxId da.store + 1 from by unfold freshId; omega] at hres
      exact hres

theorem string_append_left_cancel (a s t : String) (h : a ++ s = a ++ t) : s = t := by
  apply String.ext
  have h2 := congrArg String.data h
  rw [String.data_append, String.data_append] at h2
  exact List.append_cancel_left h2

theorem findById_eq_none_of_all_ne (d : Doc) (s : String)
    (h : ∀ m, getAttrOf d m "id" ≠ some s) : findById d s = none := by
  unfold findById
  rw [List.find?_eq_none]
  intro i _
  simp only [beq_iff_eq]
  exact h i

/-- Claim C10: the built-in rule list carries `a.footnote-ref` at both
positions 0 and 3, so every node matching that selector occurs at least
twice in the automatic candidate sequence; for a jump-back-enabled run
whose candidate `n` occurs with sequence indices `l1.length + 1` and
`l1.length + l2.length + 2` (the latter its last occurrence) and resolves
both times, both occurrences count as rewritten, the final identifier of
`n` is the LAST rewrite's `nootref<idx2>`, the earlier rewrite's
jump-back link survives in the final document still targeting
`nootref<idx1>`, and — given that no original node carried that
identifier — no node of the final document carries it and its resolution
fails: the earlier jump-back link is dangling. -/
theorem C10_duplicate_rule_double_rewrite_dangling
    (soup : Doc) (n : Nat) (l1 l2 l3 : List Nat)
    (da db dc dd dfin : Doc) (cA cC cE : Nat) (b1 b2 : Bool)
    (href1 href2 : String) (nt1 nt2 : Nat)
    (hA : processAllAux true soup 1 l1 = some (da, cA))
    (hrefB : getAttrOf da n "href" = some href1)
    (hfindB : findById (soupIdAssigned da (l1.length + 1) n) (noteIdOf href1) = some nt1)
    (hB : processOne true da (l1.length + 1) n = some (db, b1))
    (hC : processAllAux true db (l1.length + 2) l2 = some (dc, cC))
    (hrefD : getAttrOf dc n "href" = some href2)
    (hfindD : findById (soupIdAssigned dc (l1.length + l2.length + 2) n) (noteIdOf href2)
      = some nt2)
    (hD : processOne true dc (l1.length + l2.length + 2) n = some (dd, b2))
    (hE : processAllAux true dd (l1.length + l2.length + 3) l3 = some (dfin, cE))
    (hn3 : n ∉ l3)
    (hOrig : ∀ m, getAttrOf soup m "id" ≠ some ("nootref" ++ natStr (l1.length + 1)))
    (hRefs : ∀ x ∈ l1 ++ (n :: (l2 ++ (n :: l3))), x ≤ maxId soup.store) :
    (foot_ref_tags_selectors[0]? = some (Selector.tagCls "a" "footnote-ref")
      ∧ foot_ref_tags_selectors[3]? = some (Selector.tagCls "a" "footnote-ref"))
    ∧ (∀ d0 n0, n0 ∈ selectDoc d0 defaultSelector → 2 ≤ (footrefsAuto d0).count n0)
    ∧ b1 = true ∧ b2 = true
    ∧ getAttrOf dfin n "id" = some ("nootref" ++ natStr (l1.length + l2.length + 2))
    ∧ (∃ a, lookupNode dfin.store a
        = some (linkTag (l1.length + 1) ("nootref" ++ natStr (l1.length + 1))))
    ∧ (∀ m, getAttrOf dfin m "id" ≠ some ("nootref" ++ natStr (l1.length + 1)))
    ∧ findById dfin ("nootref" ++ natStr (l1.length + 1)) = none := by
  obtain ⟨hb1, halink⟩ := processOne_creates_link da (l1.length + 1) n db b1 href1 nt1
    hrefB hfindB hB
  have hb2 : b2 = true := by
    obtain ⟨d2x, hx⟩ := processOne_resolved true dc (l1.length + l2.length + 2) n href2 nt2
      hrefD hfindD
    rw [hD] at hx
    exact congrArg Prod.snd (Option.some.inj hx)
  have hmono : maxId soup.store ≤ maxId da.store :=
    processAllAux_maxId_mono true l1 soup 1 da cA hA
  have hagt : ∀ x ∈ l1 ++ (n :: (l2 ++ (n :: l3))), x ≠ maxId da.store + 1 := by
    intro x hx hxa
    have := hRefs x hx
    omega
  have hnmem : n ∈ l1 ++ (n :: (l2 ++ (n :: l3))) :=
    List.mem_append_right _ (List.mem_cons_self _ _)
  have hlinkc : lookupNode dc.store (maxId da.store + 1)
      = some (linkTag (l1.length + 1) ("nootref" ++ natStr (l1.length + 1))) :=
    processAllAux_persists true l2 db (l1.length + 2) dc cC hC _ _ _ halink
      (fun y hy => hagt y (List.mem_append_right _ (List.mem_cons_of_mem _
        (List.mem_append_left _ hy))))
  have hlinkd : lookupNode dd.store (maxId da.store + 1)
      = some (linkTag (l1.length + 1) ("nootref" ++ natStr (l1.length + 1))) :=
    processOne_persists true dc (l1.length + l2.length + 2) n dd b2 hD _ _ _ hlinkc
      (fun hh => hagt n hnmem hh.symm)
  have hlinkf : lookupNode dfin.store (maxId da.store + 1)
      = some (linkTag (l1.length + 1) ("nootref" ++ natStr (l1.length + 1))) :=
    processAllAux_persists true l3 dd (l1.length + l2.length + 3) dfin cE hE _ _ _ hlinkd
      (fun y hy => hagt y (List.mem_append_right _ (List.mem_cons_of_mem _
        (List.mem_append_right _ (List.mem_cons_of_mem _ hy)))))
  have hrun : ∃ ctot, processAllAux true soup 1 (l1 ++ (n :: (l2 ++ (n :: l3))))
      = some (dfin, ctot) := by
    rw [processAllAux_append true l1 (n :: (l2 ++ (n :: l3))) soup 1, hA]
    simp only [Option.some_bind]
    rw [show 1 + l1.length = l1.length + 1 from Nat.add_comm 1 _,
      processAllAux_cons true da (l1.length + 1) n (l2 ++ (n :: l3)), hB]
    simp only [Option.some_bind]
    rw [show l1.length + 1 + 1 = l1.length + 2 from rfl,
      processAllAux_append true l2 (n :: l3) db (l1.length + 2), hC]
    simp only [Option.some_bind]
    rw [show l1.length + 2 + l2.length = l1.length + l2.length + 2 from by omega,
      processAllAux_cons true dc (l1.length + l2.length + 2) n l3, hD]
    simp only [Option.some_bind]
    rw [show l1.length + l2.length + 2 + 1 = l1.length + l2.length + 3 from rfl, hE]
    simp only [Option.map_some']
    exact ⟨_, rfl⟩
  obtain ⟨ctot, hrun2⟩ := hrun
  have hIdMap := processAllAux_idMap true (l1 ++ (n :: (l2 ++ (n :: l3)))) soup 1 dfin ctot hrun2
  have hlast : lastIdxFrom 1 (l1 ++ (n :: (l2 ++ (n :: l3)))) n
      = some (l1.length + l2.length + 2) := by
    rw [show l1 ++ (n :: (l2 ++ (n :: l3))) = (l1 ++ (n :: l2)) ++ (n :: l3) from by simp]
    apply lastIdxFrom_append_right
    rw [show 1 + (l1 ++ (n :: l2)).length = l1.length + l2.length + 2 from by
      simp [List.length_append, List.length_cons]
      omega]
    exact lastIdxFrom_last_here _ n l3 hn3
  have hfinal : getAttrOf dfin n "id"
      = some ("nootref" ++ natStr (l1.length + l2.length + 2)) := by
    have h2 := hIdMap n
    simp only [hlast] at h2
    exact h2
  have hnone1 : ∀ m, getAttrOf dfin m "id" ≠ some ("nootref" ++ natStr (l1.length + 1)) := by
    intro m hcontra
    have hm := hIdMap m
    cases hl : lastIdxFrom 1 (l1 ++ (n :: (l2 ++ (n :: l3)))) m with
    | none =>
      simp only [hl] at hm
      rw [hm] at hcontra
      exact hOrig m hcontra
    | some k =>
      simp only [hl] at hm
      rw [hm] at hcontra
      have hk : k = l1.length + 1 :=
        natStr_inj _ _ (string_append_left_cancel "nootref" _ _ (Option.some.inj hcontra))
      subst hk
      obtain ⟨hge, pre, post, hsplit, hlen, hnp⟩ :=
        lastIdxFrom_spec (l1 ++ (n :: (l2 ++ (n :: l3)))) 1 m _ hl
      have hlenEq : l1.length = pre.length := by omega
      obtain ⟨hpre, hcons⟩ := List.append_inj hsplit hlenEq
      injection hcons with hmn hrest
      subst hmn
      rw [hlast] at hl
      have := Option.some.inj hl
      omega
  refine ⟨⟨rfl, rfl⟩, fun d0 n0 h0 => count_footrefsAuto_ge_two d0 n0 h0,
    hb1, hb2, hfinal, ⟨maxId da.store + 1, hlinkf⟩, hnone1,
    findById_eq_none_of_all_ne dfin _ hnone1⟩

/-- Witness for C10 at `docDouble`: candidate node 3 is matched twice by
the duplicated rule, both occurrences are rewritten (indices 1 and 2),
the final identifier is `nootref2`, the first rewrite's jump-back link
`<a href="#nootref1">[1]</a>` persists, and `nootref1` resolves to no
node of the final document. -/
theorem C10_duplicate_rule_double_rewrite_dangling_witness :
    foot_ref_tags_selectors[0]? = some (Selector.tagCls "a" "footnote-ref")
    ∧ foot_ref_tags_selectors[3]? = some (Selector.tagCls "a" "footnote-ref")
    ∧ 2 ≤ (footrefsAuto docDouble).count 3
    ∧ getAttrOf (soupJumped (soupMarked (soupJumped (soupMarked docDouble 1 3 4) 1 4
        "nootref1") 2 3 4) 2 4 "nootref2") 3 "id" = some ("nootref" ++ natStr 2)
    ∧ (∃ a, lookupNode (soupJumped (soupMarked (soupJumped (soupMarked docDouble 1 3 4) 1 4
        "nootref1") 2 3 4) 2 4 "nootref2").store a
        = some (linkTag 1 ("nootref" ++ natStr 1)))
    ∧ findById (soupJumped (soupMarked (soupJumped (soupMarked docDouble 1 3 4) 1 4
        "nootref1") 2 3 4) 2 4 "nootref2") ("nootref" ++ natStr 1) = none := by
  have hOrigW : ∀ m, getAttrOf docDouble m "id" ≠ some ("nootref" ++ natStr 1) := by
    intro m
    by_cases hm : m ≤ 4
    · interval_cases m <;> decide
    · have hmax : maxId docDouble.store = 4 := by decide
      unfold getAttrOf
      rw [lookupNode_of_gt_maxId docDouble.store m (by omega)]
      exact fun hcon => Option.noConfusion hcon
  have W := C10_duplicate_rule_double_rewrite_dangling docDouble 3 [] [] []
    docDouble (soupJumped (soupMarked docDouble 1 3 4) 1 4 "nootref1")
    (soupJumped (soupMarked docDouble 1 3 4) 1 4 "nootref1")
    (soupJumped (soupMarked (soupJumped (soupMarked docDouble 1 3 4) 1 4 "nootref1") 2 3 4)
      2 4 "nootref2")
    (soupJumped (soupMarked (soupJumped (soupMarked docDouble 1 3 4) 1 4 "nootref1") 2 3 4)
      2 4 "nootref2")
    0 0 0 true true "#Z" "#Z" 4 4
    (by decide) (by decide) (by decide) (by decide) (by decide)
    (by decide) (by decide) (by decide) (by decide) (by decide)
    hOrigW (by decide)
  exact ⟨W.1.1, W.1.2, W.2.1 docDouble 3 (by decide), W.2.2.2.2.1,
    W.2.2.2.2.2.1, W.2.2.2.2.2.2.2⟩

end FootnoteV2
